import Mathlib

/-!
Verification of the character-stream and pp-token scanner core of a C
preprocessor front end (Rust sources `src/source.rs` and `src/lexer.rs`).

The Rust code is shallowly embedded: every Rust function is translated to an
executable Lean definition of the same name (snake_case renamed to camelCase
where Lean style demands it), with mutable state passed explicitly.

Conventions of the embedding:
- The active-file stack `iters` is a Lean list whose HEAD is the TOP of the
  Rust `Vec` (`Vec::push`/`last`/`pop` become cons/head/tail).
- Rust `usize`/`u32` indices become `Nat`; out-of-range indexing, which the
  Rust code guards with `assert!`, is modelled with `List.getD` defaults.
- `peek_n`, the one operation whose Rust body can actually panic (it calls
  `iters.last().unwrap()` before its loop), returns
  `Option (Option SourceChar)`: the outer `none` models the panic, and
  `some r` models a normal return of `r`.
- Fallible functions return `Except CcError`.
- File reading in `push_file` is modelled by passing the would-be file
  contents as an explicit argument, used only on a cache miss.
-/

namespace CPre

/-- Model of `source.rs Point`: a (file, line, column) source location. -/
structure Point where
  file : Nat
  line : Nat
  col : Nat
deriving DecidableEq, Repr

/-- Model of `source.rs SourceFile`: a named file and its text. -/
structure SourceFile where
  name : String
  text : List Char
deriving DecidableEq, Repr

/-- Model of `source.rs SourcePointer`: a cursor into one file. -/
structure SourcePointer where
  file : Nat
  next : Nat
  next_loc : Point
deriving DecidableEq, Repr

/-- Model of `source.rs SourceChar`: a character with position and the
file-switch marker. -/
structure SourceChar where
  ch : Char
  pt : Point
  switched : Bool
deriving DecidableEq, Repr

/-- Model of `source.rs Source`: all loaded files, the active-file cursor
stack (list head is the top of the stack), and the pending switch marker. -/
structure Source where
  files : List SourceFile
  iters : List SourcePointer
  switched : Bool
deriving DecidableEq, Repr

/-- File lookup `self.files[i]`, with a default for the (asserted-unreachable)
out-of-range case. -/
def fileOf (files : List SourceFile) (i : Nat) : SourceFile :=
  files.getD i ⟨"", []⟩

/-- Model of `Source::extract_one_char`: consume one character at the cursor,
collapsing CR, LF, CR/LF and LF/CR into a single reported newline and
updating the reported position. The Rust code asserts `iter.next` in range;
out of range we read the `getD` default. -/
def extractOneChar (file : SourceFile) (iter : SourcePointer) : SourcePointer × SourceChar :=
  let ch := file.text.getD iter.next (Char.ofNat 0)
  let pt := iter.next_loc
  if ch = '\r' ∨ ch = '\n' then
    let next1 := iter.next + 1
    let next2 :=
      if next1 < file.text.length then
        let nextCh := file.text.getD next1 (Char.ofNat 0)
        if (ch = '\r' ∧ nextCh = '\n') ∨ (ch = '\n' ∧ nextCh = '\r') then next1 + 1 else next1
      else next1
    (⟨iter.file, next2, ⟨iter.next_loc.file, iter.next_loc.line + 1, 1⟩⟩, ⟨'\n', pt, false⟩)
  else
    (⟨iter.file, iter.next + 1, ⟨iter.next_loc.file, iter.next_loc.line, iter.next_loc.col + 1⟩⟩,
      ⟨ch, pt, false⟩)

/-- Model of the loop body of `Source::pop_nested`: pop exhausted cursors off
the top of the stack, flagging `switched` for each pop. -/
def popNestedIters (files : List SourceFile) : List SourcePointer → Bool → List SourcePointer × Bool
  | [], sw => ([], sw)
  | sp :: rest, sw =>
    if sp.next < (fileOf files sp.file).text.length then (sp :: rest, sw)
    else popNestedIters files rest true

/-- Model of `Source::pop_nested`. -/
def Source.popNested (s : Source) : Source :=
  let (it, sw) := popNestedIters s.files s.iters s.switched
  ⟨s.files, it, sw⟩

/-- Model of `Source::peek`: the next character without consuming it (`\r` is
reported as `\n`), or `none` on an empty stack. -/
def Source.peek (s : Source) : Option SourceChar :=
  match s.iters with
  | [] => none
  | sp :: _ =>
    let file := fileOf s.files sp.file
    let ch := file.text.getD sp.next (Char.ofNat 0)
    let ch := if ch = '\r' then '\n' else ch
    some ⟨ch, sp.next_loc, s.switched⟩

/-- Model of `Source::next` (the `Iterator` impl): consume one character,
transfer the pending `switched` marker onto it, and pop exhausted cursors. -/
def Source.next (s : Source) : Option SourceChar × Source :=
  match s.iters with
  | [] => (none, s)
  | sp :: rest =>
    let file := fileOf s.files sp.file
    let sw := s.switched
    let (sp', ch) := extractOneChar file sp
    let ch := if sw then { ch with switched := true } else ch
    let s' : Source := Source.popNested ⟨s.files, sp' :: rest, if sw then false else s.switched⟩
    (some ch, s')

/-- Model of `Source::push_data`: register a new file and push a cursor for
it, then pop exhausted entries. -/
def pushData (s : Source) (name : String) (text : List Char) : Source :=
  let file := s.files.length
  let files := s.files ++ [⟨name, text⟩]
  Source.popNested ⟨files, ⟨file, 0, ⟨file, 1, 1⟩⟩ :: s.iters, true⟩

/-- Model of `Source::push_file`. The `text` argument stands for the contents
the file system would deliver on a successful read; it is consulted only on a
cache miss, exactly as the Rust code only reads the file then. Note that the
cache-hit branch of the Rust code returns without calling `pop_nested`; the
embedding reproduces that. -/
def pushFile (s : Source) (name : String) (text : List Char) : Source :=
  match s.files.findIdx? (fun sf => sf.name = name) with
  | some file =>
    ⟨s.files, ⟨file, 0, ⟨file, 1, 1⟩⟩ :: s.iters, true⟩
  | none =>
    pushData s name text

/-- A fresh stream over a single in-memory file, as the Rust unit tests build
with `Source::new()` followed by `push_data`. -/
def mkSource (text : List Char) : Source :=
  pushData ⟨[], [], false⟩ "abc" text

/-- The character returned by the (k+1)-th subsequent call to `next`. -/
def nexts (s : Source) : Nat → Option SourceChar
  | 0 => s.next.1
  | k + 1 => nexts s.next.2 k

/-- Model of the advance loop of `Source::peek_n`, acting on the cloned cursor
stack. Result `none` models the panic of `iters.last().unwrap()` on an empty
stack; `some none` models the in-loop `return None` when the stack is
exhausted by the pops; `some (some st)` is the surviving simulated state. -/
def peekNAdvance (files : List SourceFile) :
    Nat → List SourcePointer → Bool → Option (Option (List SourcePointer × Bool))
  | 0, iters, sw => some (some (iters, sw))
  | _ + 1, [], _ => none
  | n + 1, sp :: rest, _ =>
    let sp' := (extractOneChar (fileOf files sp.file) sp).1
    match popNestedIters files (sp' :: rest) false with
    | ([], _) => some none
    | (sp2 :: it, sw') => peekNAdvance files n (sp2 :: it) sw'

/-- Model of `Source::peek_n`. The outer `none` models a panic (only possible
when the real stack is empty and `n > 0`); `some r` models returning `r`. -/
def peekN (s : Source) (n : Nat) : Option (Option SourceChar) :=
  match peekNAdvance s.files n s.iters s.switched with
  | none => none
  | some none => some none
  | some (some (iters, sw)) =>
    match iters with
    | [] => some none
    | sp :: _ =>
      let file := fileOf s.files sp.file
      let ch := file.text.getD sp.next (Char.ofNat 0)
      let ch := if ch = '\r' then '\n' else ch
      some (some ⟨ch, sp.next_loc, sw⟩)

/-- The value `peek_n` returns at call sites where it cannot panic. All uses
of `peek_n` in `lexer.rs` first observe `peek_n 0 = some _` (hence a nonempty
stack) before calling with `n > 0`, so on those calls `peekN` never takes its
panic branch and `peekNT` agrees with it (`peekN_ne_none` below makes this
precise). -/
def peekNT (s : Source) (n : Nat) : Option SourceChar :=
  (peekN s n).join

/-- Decidable form of the documented stream invariant: every cursor on the
stack addresses a loaded file and an in-range offset. -/
def sourceInvB (s : Source) : Bool :=
  s.iters.all (fun sp =>
    decide (sp.file < s.files.length) && decide (sp.next < (fileOf s.files sp.file).text.length))

/-- The documented stream invariant as a proposition. -/
def SourceInv (s : Source) : Prop :=
  sourceInvB s = true

instance (s : Source) : Decidable (SourceInv s) := by
  unfold SourceInv
  infer_instance

/-- Remaining unread characters of one cursor. -/
def srcRem (files : List SourceFile) (sp : SourcePointer) : Nat :=
  (fileOf files sp.file).text.length - sp.next

/-- Remaining unread characters of the whole stream. -/
def remChars (s : Source) : Nat := (s.iters.map (srcRem s.files)).sum

/-- Termination measure for all consuming loops: remaining characters plus
stack height (every advance strictly decreases it, even on exhausted
cursors, because the pop loop then shortens the stack). -/
def mu (s : Source) : Nat := remChars s + s.iters.length

theorem popNestedIters_sum (files : List SourceFile) (it : List SourcePointer) (sw : Bool) :
    ((popNestedIters files it sw).1.map (srcRem files)).sum = (it.map (srcRem files)).sum ∧
      (popNestedIters files it sw).1.length ≤ it.length := by
  induction it generalizing sw with
  | nil => simp [popNestedIters]
  | cons sp rest ih =>
    by_cases h : sp.next < (fileOf files sp.file).text.length
    · simp [popNestedIters, h]
    · have hz : srcRem files sp = 0 := by
        simp only [srcRem]
        omega
      simp only [popNestedIters, if_neg h]
      refine ⟨?_, ?_⟩
      · rw [(ih true).1]
        simp [hz]
      · exact le_trans (ih true).2 (Nat.le_succ _)

theorem extractOneChar_file (f : SourceFile) (sp : SourcePointer) :
    (extractOneChar f sp).1.file = sp.file := by
  unfold extractOneChar
  dsimp only
  split
  · dsimp only
  · dsimp only

theorem extractOneChar_next_gt (f : SourceFile) (sp : SourcePointer) :
    sp.next < (extractOneChar f sp).1.next := by
  unfold extractOneChar
  dsimp only
  split
  · dsimp only
    split
    · split <;> omega
    · omega
  · dsimp only
    omega

theorem next_mu_lt (s : Source) (h : s.iters ≠ []) : mu s.next.2 < mu s := by
  match hs : s.iters with
  | [] => exact absurd hs h
  | sp :: rest =>
    have hnext : s.next.2 =
        Source.popNested ⟨s.files, (extractOneChar (fileOf s.files sp.file) sp).1 :: rest,
          if s.switched then false else s.switched⟩ := by
      simp [Source.next, hs]
    set sp' := (extractOneChar (fileOf s.files sp.file) sp).1 with hsp'
    have hps := popNestedIters_sum s.files (sp' :: rest) (if s.switched then false else s.switched)
    have hfile : sp'.file = sp.file := extractOneChar_file _ _
    have hstep : sp.next < sp'.next := extractOneChar_next_gt _ _
    have hgoal : mu s = srcRem s.files sp + (rest.map (srcRem s.files)).sum + rest.length + 1 := by
      simp only [mu, remChars, hs, List.map_cons, List.sum_cons, List.length_cons]
      omega
    rw [hgoal]
    by_cases hz : srcRem s.files sp = 0
    · have hsp'z : ¬ sp'.next < (fileOf s.files sp'.file).text.length := by
        simp only [srcRem] at hz
        rw [hfile]
        omega
      have hpop : popNestedIters s.files (sp' :: rest) (if s.switched then false else s.switched) =
          popNestedIters s.files rest true := by
        simp [popNestedIters, hsp'z]
      have hps2 := popNestedIters_sum s.files rest true
      have key : mu s.next.2 ≤ (rest.map (srcRem s.files)).sum + rest.length := by
        rw [hnext]
        simp only [mu, remChars, Source.popNested, hpop]
        rw [hps2.1]
        have := hps2.2
        omega
      omega
    · have hr : srcRem s.files sp' + 1 ≤ srcRem s.files sp := by
        simp only [srcRem, hfile] at *
        omega
      have key : mu s.next.2 ≤ srcRem s.files sp' + (rest.map (srcRem s.files)).sum +
          (rest.length + 1) := by
        rw [hnext]
        simp only [mu, remChars, Source.popNested]
        rw [hps.1]
        simp only [List.map_cons, List.sum_cons, List.length_cons]
        have := hps.2
        simp only [List.length_cons] at this
        omega
      omega

theorem peek_some_ne_nil {s : Source} {ch : SourceChar} (h : s.peek = some ch) :
    s.iters ≠ [] := by
  intro he
  simp [Source.peek, he] at h

theorem nil_peek_none {s : Source} (h : s.iters = []) : s.peek = none := by
  simp [Source.peek, h]

theorem nil_next {s : Source} (h : s.iters = []) : s.next = (none, s) := by
  simp [Source.next, h]

theorem nil_nexts {s : Source} (h : s.iters = []) (k : Nat) : nexts s k = none := by
  induction k generalizing s with
  | zero => simp [nexts, nil_next h]
  | succ k ih =>
    have hn := nil_next h
    simp only [nexts, hn]
    exact ih h

theorem peek_eq_next_fst (s : Source) : s.peek = s.next.1 := by
  match hs : s.iters with
  | [] => simp [Source.peek, Source.next, hs]
  | sp :: rest =>
    simp only [Source.peek, Source.next, hs]
    unfold extractOneChar
    dsimp only
    set c := (fileOf s.files sp.file).text.getD sp.next (Char.ofNat 0) with hc
    by_cases hnl : c = '\r' ∨ c = '\n'
    · rw [if_pos hnl]
      dsimp only
      have hch : (if c = '\r' then '\n' else c) = '\n' := by
        rcases hnl with h | h <;> simp [h]
      rw [hch]
      cases hsw : s.switched <;> simp
    · rw [if_neg hnl]
      dsimp only
      have hch : (if c = '\r' then '\n' else c) = c := by
        rcases not_or.mp hnl with ⟨h1, h2⟩
        simp [h1]
      rw [hch]
      cases hsw : s.switched <;> simp

theorem peekN_zero (s : Source) : peekN s 0 = some s.peek := by
  unfold peekN peekNAdvance
  match hs : s.iters with
  | [] => simp [Source.peek, hs]
  | sp :: rest => simp [Source.peek, hs]

theorem next_as_pop (s : Source) (sp : SourcePointer) (rest : List SourcePointer)
    (hs : s.iters = sp :: rest) :
    s.next.2 = ⟨s.files,
      (popNestedIters s.files ((extractOneChar (fileOf s.files sp.file) sp).1 :: rest) false).1,
      (popNestedIters s.files ((extractOneChar (fileOf s.files sp.file) sp).1 :: rest) false).2⟩ := by
  have hsw : (if s.switched then false else s.switched) = false := by
    cases h : s.switched <;> simp
  simp [Source.next, hs, Source.popNested, hsw]

theorem peekN_succ (s : Source) (n : Nat) (h : s.iters ≠ []) :
    peekN s (n + 1) = if s.next.2.iters = [] then some none else peekN s.next.2 n := by
  match hs : s.iters with
  | [] => exact absurd hs h
  | sp :: rest =>
    have hnext := next_as_pop s sp rest hs
    have hfiles : s.next.2.files = s.files := by rw [hnext]
    unfold peekN
    conv_lhs => rw [hs]
    rw [peekNAdvance]
    match hpop : popNestedIters s.files ((extractOneChar (fileOf s.files sp.file) sp).1 :: rest)
        false with
    | ([], sw2) =>
      have hit : s.next.2.iters = [] := by
        rw [hnext, hpop]
      simp [hit, hpop]
    | (sp2 :: it, sw2) =>
      have hit : s.next.2.iters = sp2 :: it := by
        rw [hnext, hpop]
      have hsw2 : s.next.2.switched = sw2 := by
        rw [hnext, hpop]
      simp only [hit, hpop]
      have : ¬ (sp2 :: it = ([] : List SourcePointer)) := by simp
      rw [if_neg this]
      rw [hfiles, hsw2]

theorem peekN_some_of_nonempty (s : Source) (n : Nat) (h : s.iters ≠ [] ∨ n = 0) :
    peekN s n ≠ none := by
  induction n generalizing s with
  | zero => rw [peekN_zero]; simp
  | succ n ih =>
    have hne : s.iters ≠ [] := by
      rcases h with h | h
      · exact h
      · exact absurd h (by simp)
    rw [peekN_succ s n hne]
    by_cases he : s.next.2.iters = []
    · simp [he]
    · rw [if_neg he]
      exact ih s.next.2 (Or.inl he)

theorem peekNT_some_ne_nil {s : Source} {n : Nat} {ch : SourceChar}
    (h : peekNT s n = some ch) : s.iters ≠ [] := by
  intro he
  cases n with
  | zero =>
    rw [peekNT, peekN_zero, nil_peek_none he] at h
    simp [Option.join] at h
  | succ n =>
    rw [peekNT] at h
    unfold peekN at h
    rw [he] at h
    rw [peekNAdvance] at h
    simp [Option.join] at h

theorem peekNT_some_mu {s : Source} {n : Nat} {ch : SourceChar}
    (h : peekNT s n = some ch) : n < mu s := by
  induction n generalizing s with
  | zero =>
    have hne := peekNT_some_ne_nil h
    have : s.iters.length ≥ 1 := by
      cases hs : s.iters with
      | nil => exact absurd hs hne
      | cons a l => simp
    simp only [mu]
    omega
  | succ n ih =>
    have hne := peekNT_some_ne_nil h
    rw [peekNT, peekN_succ s n hne] at h
    by_cases he : s.next.2.iters = []
    · rw [if_pos he] at h
      simp [Option.join] at h
    · rw [if_neg he] at h
      have hrec : peekNT s.next.2 n = some ch := by
        rw [peekNT, h]
      have := ih hrec
      have := next_mu_lt s hne
      omega

theorem nonempty_peek_isSome (s : Source) (h : s.iters ≠ []) : s.peek.isSome := by
  match hs : s.iters with
  | [] => exact absurd hs h
  | sp :: rest => simp [Source.peek, hs]

/-- Model of `ccerror.rs CcError`. -/
structure CcError where
  what : String
  loc : Option Point
deriving DecidableEq, Repr

/-- Model of `CcError::err_with_loc`. -/
def CcError.errWithLoc (what : String) (loc : Point) : CcError :=
  ⟨what, some loc⟩

/-- Model of `lexer.rs PpToken`. -/
inductive PpToken where
  | Identifier (text : String)
  | StringLiteral (text : String)
  | Number (text : String)
  | CharLiteral (text : String)
  | Hash
  | Add
  | Subtract
  | Star
  | Divide
  | Mod
  | Increment
  | Decrement
  | Equal
  | NotEqual
  | Less
  | LessEqual
  | Greater
  | GreaterEqual
  | LogicalNot
  | LogicalAnd
  | LogicalOr
  | BitNot
  | Ampersand
  | BitOr
  | BitXor
  | ShiftLeft
  | ShiftRight
  | Assign
  | AddAssign
  | SubtractAssign
  | MultiplyAssign
  | DivideAssign
  | ModAssign
  | AndAssign
  | OrAssign
  | XorAssign
  | LeftShiftAssign
  | RightShiftAssign
  | LeftBracket
  | RightBracket
  | LeftParen
  | RightParen
  | LeftBrace
  | RightBrace
  | Dot
  | Arrow
  | Semicolon
  | Question
  | Colon
  | Comma
  | Other (ch : Char)
  | BlockComment
  | LineComment
  | Eof
deriving Repr

/-- An injective encoding of tokens, used only to decide token equality. -/
def PpToken.enc : PpToken → Nat × String × Char
  | .Identifier s => (0, s, 'a')
  | .StringLiteral s => (1, s, 'a')
  | .Number s => (2, s, 'a')
  | .CharLiteral s => (3, s, 'a')
  | .Hash => (4, "", 'a')
  | .Add => (5, "", 'a')
  | .Subtract => (6, "", 'a')
  | .Star => (7, "", 'a')
  | .Divide => (8, "", 'a')
  | .Mod => (9, "", 'a')
  | .Increment => (10, "", 'a')
  | .Decrement => (11, "", 'a')
  | .Equal => (12, "", 'a')
  | .NotEqual => (13, "", 'a')
  | .Less => (14, "", 'a')
  | .LessEqual => (15, "", 'a')
  | .Greater => (16, "", 'a')
  | .GreaterEqual => (17, "", 'a')
  | .LogicalNot => (18, "", 'a')
  | .LogicalAnd => (19, "", 'a')
  | .LogicalOr => (20, "", 'a')
  | .BitNot => (21, "", 'a')
  | .Ampersand => (22, "", 'a')
  | .BitOr => (23, "", 'a')
  | .BitXor => (24, "", 'a')
  | .ShiftLeft => (25, "", 'a')
  | .ShiftRight => (26, "", 'a')
  | .Assign => (27, "", 'a')
  | .AddAssign => (28, "", 'a')
  | .SubtractAssign => (29, "", 'a')
  | .MultiplyAssign => (30, "", 'a')
  | .DivideAssign => (31, "", 'a')
  | .ModAssign => (32, "", 'a')
  | .AndAssign => (33, "", 'a')
  | .OrAssign => (34, "", 'a')
  | .XorAssign => (35, "", 'a')
  | .LeftShiftAssign => (36, "", 'a')
  | .RightShiftAssign => (37, "", 'a')
  | .LeftBracket => (38, "", 'a')
  | .RightBracket => (39, "", 'a')
  | .LeftParen => (40, "", 'a')
  | .RightParen => (41, "", 'a')
  | .LeftBrace => (42, "", 'a')
  | .RightBrace => (43, "", 'a')
  | .Dot => (44, "", 'a')
  | .Arrow => (45, "", 'a')
  | .Semicolon => (46, "", 'a')
  | .Question => (47, "", 'a')
  | .Colon => (48, "", 'a')
  | .Comma => (49, "", 'a')
  | .Other c => (50, "", c)
  | .BlockComment => (51, "", 'a')
  | .LineComment => (52, "", 'a')
  | .Eof => (53, "", 'a')

/-- A left inverse of the token encoding. -/
def PpToken.dec : Nat × String × Char → PpToken
  | (0, s, _) => .Identifier s
  | (1, s, _) => .StringLiteral s
  | (2, s, _) => .Number s
  | (3, s, _) => .CharLiteral s
  | (4, _, _) => .Hash
  | (5, _, _) => .Add
  | (6, _, _) => .Subtract
  | (7, _, _) => .Star
  | (8, _, _) => .Divide
  | (9, _, _) => .Mod
  | (10, _, _) => .Increment
  | (11, _, _) => .Decrement
  | (12, _, _) => .Equal
  | (13, _, _) => .NotEqual
  | (14, _, _) => .Less
  | (15, _, _) => .LessEqual
  | (16, _, _) => .Greater
  | (17, _, _) => .GreaterEqual
  | (18, _, _) => .LogicalNot
  | (19, _, _) => .LogicalAnd
  | (20, _, _) => .LogicalOr
  | (21, _, _) => .BitNot
  | (22, _, _) => .Ampersand
  | (23, _, _) => .BitOr
  | (24, _, _) => .BitXor
  | (25, _, _) => .ShiftLeft
  | (26, _, _) => .ShiftRight
  | (27, _, _) => .Assign
  | (28, _, _) => .AddAssign
  | (29, _, _) => .SubtractAssign
  | (30, _, _) => .MultiplyAssign
  | (31, _, _) => .DivideAssign
  | (32, _, _) => .ModAssign
  | (33, _, _) => .AndAssign
  | (34, _, _) => .OrAssign
  | (35, _, _) => .XorAssign
  | (36, _, _) => .LeftShiftAssign
  | (37, _, _) => .RightShiftAssign
  | (38, _, _) => .LeftBracket
  | (39, _, _) => .RightBracket
  | (40, _, _) => .LeftParen
  | (41, _, _) => .RightParen
  | (42, _, _) => .LeftBrace
  | (43, _, _) => .RightBrace
  | (44, _, _) => .Dot
  | (45, _, _) => .Arrow
  | (46, _, _) => .Semicolon
  | (47, _, _) => .Question
  | (48, _, _) => .Colon
  | (49, _, _) => .Comma
  | (50, _, c) => .Other c
  | (51, _, _) => .BlockComment
  | (52, _, _) => .LineComment
  | _ => .Eof

/-- Decoding undoes encoding, so the encoding is injective. -/
theorem PpToken.dec_enc : ∀ t : PpToken, PpToken.dec (PpToken.enc t) = t := by
  intro t
  cases t <;> rfl

instance : DecidableEq PpToken := fun a b =>
  decidable_of_iff (PpToken.enc a = PpToken.enc b)
    ⟨fun h => by
      have h2 := congrArg PpToken.dec h
      rwa [PpToken.dec_enc, PpToken.dec_enc] at h2,
      fun h => by rw [h]⟩

deriving instance DecidableEq for Except

/-- Model of `lexer.rs OpNode`: a node of the punctuator trie. -/
inductive OpNode where
  | mk (token : PpToken) (next : Option (List (Char × OpNode)))

/-- The default token of a trie node. -/
def OpNode.token : OpNode → PpToken
  | .mk t _ => t

/-- The child table of a trie node. -/
def OpNode.next : OpNode → Option (List (Char × OpNode))
  | .mk _ n => n

/-- Model of the static `OPERATORS` table of `lexer.rs`, transcribed entry by
entry (note: the source maps the key `'+'` under `'-'` to `Decrement`). -/
def OPERATORS : List (Char × OpNode) := [
  ('(', OpNode.mk PpToken.LeftParen none),
  (')', OpNode.mk PpToken.RightParen none),
  ('{', OpNode.mk PpToken.LeftBrace none),
  ('}', OpNode.mk PpToken.RightBrace none),
  ('[', OpNode.mk PpToken.LeftBracket none),
  (']', OpNode.mk PpToken.RightBracket none),
  (';', OpNode.mk PpToken.Semicolon none),
  ('#', OpNode.mk PpToken.Hash none),
  ('?', OpNode.mk PpToken.Question none),
  (':', OpNode.mk PpToken.Colon none),
  (',', OpNode.mk PpToken.Comma none),
  ('~', OpNode.mk PpToken.BitNot none),
  ('.', OpNode.mk PpToken.Dot none),
  ('+', OpNode.mk PpToken.Add (some [
    ('+', OpNode.mk PpToken.Increment none),
    ('=', OpNode.mk PpToken.AddAssign none)])),
  ('-', OpNode.mk PpToken.Subtract (some [
    ('+', OpNode.mk PpToken.Decrement none),
    ('=', OpNode.mk PpToken.SubtractAssign none),
    ('>', OpNode.mk PpToken.Arrow none)])),
  ('*', OpNode.mk PpToken.Star (some [
    ('=', OpNode.mk PpToken.MultiplyAssign none)])),
  ('/', OpNode.mk PpToken.Divide (some [
    ('=', OpNode.mk PpToken.DivideAssign none),
    ('*', OpNode.mk PpToken.BlockComment none),
    ('/', OpNode.mk PpToken.LineComment none)])),
  ('%', OpNode.mk PpToken.Mod (some [
    ('=', OpNode.mk PpToken.ModAssign none)])),
  ('=', OpNode.mk PpToken.Assign (some [
    ('=', OpNode.mk PpToken.Equal none)])),
  ('!', OpNode.mk PpToken.LogicalNot (some [
    ('=', OpNode.mk PpToken.NotEqual none)])),
  ('&', OpNode.mk PpToken.Ampersand (some [
    ('=', OpNode.mk PpToken.AndAssign none),
    ('&', OpNode.mk PpToken.LogicalAnd none)])),
  ('|', OpNode.mk PpToken.BitOr (some [
    ('=', OpNode.mk PpToken.OrAssign none),
    ('|', OpNode.mk PpToken.LogicalOr none)])),
  ('^', OpNode.mk PpToken.BitXor (some [
    ('=', OpNode.mk PpToken.XorAssign none)])),
  ('<', OpNode.mk PpToken.Less (some [
    ('=', OpNode.mk PpToken.LessEqual none),
    ('<', OpNode.mk PpToken.ShiftLeft (some [
      ('=', OpNode.mk PpToken.LeftShiftAssign none)]))])),
  ('>', OpNode.mk PpToken.Greater (some [
    ('=', OpNode.mk PpToken.GreaterEqual none),
    ('>', OpNode.mk PpToken.ShiftRight (some [
      ('=', OpNode.mk PpToken.RightShiftAssign none)]))]))]

/-- Model of `HashMap::get` on the trie child tables (an association-list
lookup; the keys of each table are distinct). -/
def assocFind (c : Char) : List (Char × OpNode) → Option OpNode
  | [] => none
  | (k, v) :: rest => if k = c then some v else assocFind c rest

/-- Model of Rust `char::is_ascii_whitespace`. -/
def isAsciiWhitespace (c : Char) : Bool :=
  c = ' ' || c = '\t' || c = '\n' || c = Char.ofNat 12 || c = '\r'

/-- Model of Rust `char::is_ascii_alphabetic`. -/
def isAsciiAlphabetic (c : Char) : Bool :=
  (decide ('A' ≤ c) && decide (c ≤ 'Z')) || (decide ('a' ≤ c) && decide (c ≤ 'z'))

/-- Model of Rust `char::is_ascii_digit`. -/
def isAsciiDigit (c : Char) : Bool :=
  decide ('0' ≤ c) && decide (c ≤ '9')

/-- Model of Rust `char::is_ascii_alphanumeric`. -/
def isAsciiAlphanumeric (c : Char) : Bool :=
  isAsciiAlphabetic c || isAsciiDigit c

/-- Model of Rust `char::is_ascii_hexdigit`. -/
def isAsciiHexdigit (c : Char) : Bool :=
  isAsciiDigit c || (decide ('A' ≤ c) && decide (c ≤ 'F')) ||
    (decide ('a' ≤ c) && decide (c ≤ 'f'))

/-- Model of `lexer.rs next_spliced`: consume the next character, eliding
backslash-newline pairs. -/
def nextSpliced (s : Source) : Option SourceChar × Source :=
  match h : s.peek with
  | some ch =>
    if hb : ch.ch = '\\' then
      let s1 := s.next.2
      match h2 : s1.peek with
      | some ch2 =>
        if ch2.ch = '\n' then nextSpliced s1.next.2 else (some ch, s1)
      | none => (some ch, s1)
    else s.next
  | none => s.next
termination_by mu s
decreasing_by
  exact lt_trans (next_mu_lt s.next.2 (peek_some_ne_nil h2)) (next_mu_lt _ (peek_some_ne_nil h))

theorem nextSpliced_none {s : Source} (h : s.peek = none) : nextSpliced s = s.next := by
  rw [nextSpliced]
  split <;> simp_all

theorem nextSpliced_plain {s : Source} {ch : SourceChar} (h : s.peek = some ch)
    (hb : ch.ch ≠ '\\') : nextSpliced s = s.next := by
  rw [nextSpliced]
  split <;> simp_all

theorem nextSpliced_bs_nl {s : Source} {ch ch2 : SourceChar} (h : s.peek = some ch)
    (hb : ch.ch = '\\') (h2 : s.next.2.peek = some ch2) (hn : ch2.ch = '\n') :
    nextSpliced s = nextSpliced s.next.2.next.2 := by
  rw [nextSpliced]
  split <;> simp_all
  split <;> simp_all

theorem nextSpliced_bs_end {s : Source} {ch : SourceChar} (h : s.peek = some ch)
    (hb : ch.ch = '\\') (h2 : s.next.2.peek = none) :
    nextSpliced s = (some ch, s.next.2) := by
  rw [nextSpliced]
  split <;> simp_all
  split <;> simp_all

theorem nextSpliced_bs_stop {s : Source} {ch ch2 : SourceChar} (h : s.peek = some ch)
    (hb : ch.ch = '\\') (h2 : s.next.2.peek = some ch2) (hn : ch2.ch ≠ '\n') :
    nextSpliced s = (some ch, s.next.2) := by
  rw [nextSpliced]
  split <;> simp_all
  split <;> simp_all

theorem nextSpliced_mu_le (s : Source) : mu (nextSpliced s).2 ≤ mu s := by
  induction s using nextSpliced.induct with
  | case1 s ch h hb s1 ch2 h2 hn ih =>
    rw [nextSpliced_bs_nl h hb h2 hn]
    calc mu (nextSpliced s.next.2.next.2).2 ≤ mu s.next.2.next.2 := ih
    _ ≤ mu s.next.2 := le_of_lt (next_mu_lt s.next.2 (peek_some_ne_nil h2))
    _ ≤ mu s := le_of_lt (next_mu_lt s (peek_some_ne_nil h))
  | case2 s ch h hb s1 ch2 h2 hn =>
    rw [nextSpliced_bs_stop h hb h2 hn]
    exact le_of_lt (next_mu_lt s (peek_some_ne_nil h))
  | case3 s ch h hb s1 h2 =>
    rw [nextSpliced_bs_end h hb h2]
    exact le_of_lt (next_mu_lt s (peek_some_ne_nil h))
  | case4 s ch h hb =>
    rw [nextSpliced_plain h hb]
    exact le_of_lt (next_mu_lt s (peek_some_ne_nil h))
  | case5 s h =>
    rw [nextSpliced_none h]
    match hs : s.iters with
    | [] => rw [nil_next hs]
    | sp :: rest =>
      have hne : s.iters ≠ [] := by rw [hs]; simp
      exact le_of_lt (next_mu_lt s hne)

theorem nextSpliced_mu_lt (s : Source) (h : s.iters ≠ []) : mu (nextSpliced s).2 < mu s := by
  have hp0 := nonempty_peek_isSome s h
  rw [Option.isSome_iff_exists] at hp0
  rcases hp0 with ⟨ch, hp⟩
  by_cases hb : ch.ch = '\\'
  · match h2 : s.next.2.peek with
    | some ch2 =>
      by_cases hn : ch2.ch = '\n'
      · rw [nextSpliced_bs_nl hp hb h2 hn]
        calc mu (nextSpliced s.next.2.next.2).2 ≤ mu s.next.2.next.2 := nextSpliced_mu_le _
        _ < mu s.next.2 := next_mu_lt s.next.2 (peek_some_ne_nil h2)
        _ < mu s := next_mu_lt s h
      · rw [nextSpliced_bs_stop hp hb h2 hn]
        exact next_mu_lt s h
    | none =>
      rw [nextSpliced_bs_end hp hb h2]
      exact next_mu_lt s h
  · rw [nextSpliced_plain hp hb]
    exact next_mu_lt s h

theorem nextSpliced_some_ne_nil {s : Source} {ch : SourceChar}
    (h : (nextSpliced s).1 = some ch) : s.iters ≠ [] := by
  intro he
  rw [nextSpliced_none (nil_peek_none he), nil_next he] at h
  cases h

/-- Model of the loop of `lexer.rs peek_spliced`, with the loop counter `n`
made explicit. -/
def peekSplicedAux (s : Source) (n : Nat) : Option SourceChar :=
  match h : peekNT s n with
  | some ch =>
    if hb : ch.ch = '\\' then
      match h2 : peekNT s (n + 1) with
      | some ch2 =>
        if ch2.ch = '\n' then peekSplicedAux s (n + 2) else some ch
      | none => some ch
    else peekNT s n
  | none => peekNT s n
termination_by mu s - n
decreasing_by
  have := peekNT_some_mu h2
  omega

/-- Model of `lexer.rs peek_spliced`. -/
def peekSpliced (s : Source) : Option SourceChar :=
  peekSplicedAux s 0

/-- Model of the loop of `lexer.rs peek_spliced_n`, with the loop counter `i`
made explicit. -/
def peekSplicedNAux (s : Source) (n i : Nat) : Option SourceChar :=
  match h : peekNT s i with
  | some ch =>
    if hb : ch.ch = '\\' then
      match h2 : peekNT s (i + 1) with
      | some ch2 =>
        if ch2.ch = '\n' then peekSplicedNAux s n (i + 2) else some ch
      | none => some ch
    else
      if n = 0 then peekNT s i else peekSplicedNAux s (n - 1) (i + 1)
  | none =>
    if n = 0 then peekNT s i else peekSplicedNAux s (n - 1) (i + 1)
termination_by (n, mu s - i)
decreasing_by
  · exact Prod.Lex.right n (by have := peekNT_some_mu h2; omega)
  · exact Prod.Lex.left _ _ (by omega)
  · exact Prod.Lex.left _ _ (by omega)

/-- Model of `lexer.rs peek_spliced_n`. -/
def peekSplicedN (s : Source) (n : Nat) : Option SourceChar :=
  peekSplicedNAux s n 0

theorem peekSplicedAux_nf {s : Source} {n : Nat} (h : peekNT s n = none) :
    peekSplicedAux s n = none := by
  rw [peekSplicedAux]
  split <;> simp_all

theorem peekSplicedAux_plain {s : Source} {n : Nat} {ch : SourceChar}
    (h : peekNT s n = some ch) (hb : ch.ch ≠ '\\') : peekSplicedAux s n = some ch := by
  rw [peekSplicedAux]
  split <;> simp_all

theorem peekSplicedAux_bs_nl {s : Source} {n : Nat} {ch ch2 : SourceChar}
    (h : peekNT s n = some ch) (hb : ch.ch = '\\') (h2 : peekNT s (n + 1) = some ch2)
    (hn : ch2.ch = '\n') : peekSplicedAux s n = peekSplicedAux s (n + 2) := by
  rw [peekSplicedAux]
  split <;> simp_all
  split <;> simp_all

theorem peekSplicedAux_bs_end {s : Source} {n : Nat} {ch : SourceChar}
    (h : peekNT s n = some ch) (hb : ch.ch = '\\') (h2 : peekNT s (n + 1) = none) :
    peekSplicedAux s n = some ch := by
  rw [peekSplicedAux]
  split <;> simp_all
  split <;> simp_all

theorem peekSplicedAux_bs_stop {s : Source} {n : Nat} {ch ch2 : SourceChar}
    (h : peekNT s n = some ch) (hb : ch.ch = '\\') (h2 : peekNT s (n + 1) = some ch2)
    (hn : ch2.ch ≠ '\n') : peekSplicedAux s n = some ch := by
  rw [peekSplicedAux]
  split <;> simp_all
  split <;> simp_all

theorem peekSplicedAux_some_ne_nil {s : Source} {n : Nat} {ch : SourceChar}
    (h : peekSplicedAux s n = some ch) : s.iters ≠ [] := by
  induction n using peekSplicedAux.induct s with
  | case1 n ch0 h0 hb ch2 h2 hn ih =>
    rw [peekSplicedAux_bs_nl h0 hb h2 hn] at h
    exact ih h
  | case2 n ch0 h0 hb ch2 h2 hn =>
    exact peekNT_some_ne_nil h0
  | case3 n ch0 h0 hb h2 =>
    exact peekNT_some_ne_nil h0
  | case4 n ch0 h0 hb =>
    exact peekNT_some_ne_nil h0
  | case5 n h0 =>
    rw [peekSplicedAux_nf h0] at h
    cases h

theorem peekSpliced_some_ne_nil {s : Source} {ch : SourceChar}
    (h : peekSpliced s = some ch) : s.iters ≠ [] :=
  peekSplicedAux_some_ne_nil h

theorem peekSplicedNAux_nf_zero {s : Source} {i : Nat} (h : peekNT s i = none) :
    peekSplicedNAux s 0 i = none := by
  rw [peekSplicedNAux]
  split <;> simp_all

theorem peekSplicedNAux_nf_succ {s : Source} {n i : Nat} (h : peekNT s i = none)
    (hn0 : n ≠ 0) : peekSplicedNAux s n i = peekSplicedNAux s (n - 1) (i + 1) := by
  rw [peekSplicedNAux]
  split <;> simp_all

theorem peekSplicedNAux_plain_zero {s : Source} {i : Nat} {ch : SourceChar}
    (h : peekNT s i = some ch) (hb : ch.ch ≠ '\\') :
    peekSplicedNAux s 0 i = some ch := by
  rw [peekSplicedNAux]
  split <;> simp_all

theorem peekSplicedNAux_plain_succ {s : Source} {n i : Nat} {ch : SourceChar}
    (h : peekNT s i = some ch) (hb : ch.ch ≠ '\\') (hn0 : n ≠ 0) :
    peekSplicedNAux s n i = peekSplicedNAux s (n - 1) (i + 1) := by
  rw [peekSplicedNAux]
  split <;> simp_all

theorem peekSplicedNAux_bs_nl {s : Source} {n i : Nat} {ch ch2 : SourceChar}
    (h : peekNT s i = some ch) (hb : ch.ch = '\\') (h2 : peekNT s (i + 1) = some ch2)
    (hn : ch2.ch = '\n') : peekSplicedNAux s n i = peekSplicedNAux s n (i + 2) := by
  rw [peekSplicedNAux]
  split <;> simp_all
  split <;> simp_all

theorem peekSplicedNAux_bs_end {s : Source} {n i : Nat} {ch : SourceChar}
    (h : peekNT s i = some ch) (hb : ch.ch = '\\') (h2 : peekNT s (i + 1) = none) :
    peekSplicedNAux s n i = some ch := by
  rw [peekSplicedNAux]
  split <;> simp_all
  split <;> simp_all

theorem peekSplicedNAux_bs_stop {s : Source} {n i : Nat} {ch ch2 : SourceChar}
    (h : peekNT s i = some ch) (hb : ch.ch = '\\') (h2 : peekNT s (i + 1) = some ch2)
    (hn : ch2.ch ≠ '\n') : peekSplicedNAux s n i = some ch := by
  rw [peekSplicedNAux]
  split <;> simp_all
  split <;> simp_all

theorem peekSplicedNAux_zero (s : Source) (i : Nat) :
    peekSplicedNAux s 0 i = peekSplicedAux s i := by
  induction i using peekSplicedAux.induct s with
  | case1 i ch0 h0 hb ch2 h2 hn ih =>
    rw [peekSplicedNAux_bs_nl h0 hb h2 hn, peekSplicedAux_bs_nl h0 hb h2 hn]
    exact ih
  | case2 i ch0 h0 hb ch2 h2 hn =>
    rw [peekSplicedNAux_bs_stop h0 hb h2 hn, peekSplicedAux_bs_stop h0 hb h2 hn]
  | case3 i ch0 h0 hb h2 =>
    rw [peekSplicedNAux_bs_end h0 hb h2, peekSplicedAux_bs_end h0 hb h2]
  | case4 i ch0 h0 hb =>
    rw [peekSplicedNAux_plain_zero h0 hb, peekSplicedAux_plain h0 hb]
  | case5 i h0 =>
    rw [peekSplicedNAux_nf_zero h0, peekSplicedAux_nf h0]

theorem peekSplicedN_zero (s : Source) : peekSplicedN s 0 = peekSpliced s :=
  peekSplicedNAux_zero s 0

theorem assocFind_sizeOf {c : Char} {map : List (Char × OpNode)} {op : OpNode}
    (h : assocFind c map = some op) : sizeOf op < sizeOf map := by
  induction map with
  | nil => cases h
  | cons p rest ih =>
    match p with
    | (k, v) =>
      rw [assocFind] at h
      by_cases hk : k = c
      · rw [if_pos hk] at h
        injection h with h2
        subst h2
        simp only [List.cons.sizeOf_spec, Prod.mk.sizeOf_spec]
        omega
      · rw [if_neg hk] at h
        have := ih h
        simp only [List.cons.sizeOf_spec]
        omega

theorem opNode_next_sizeOf {op : OpNode} {l : List (Char × OpNode)} (h : op.next = some l) :
    sizeOf l < sizeOf op := by
  match op with
  | .mk t nx =>
    rw [OpNode.next] at h
    subst h
    simp only [OpNode.mk.sizeOf_spec, Option.some.sizeOf_spec]
    omega

/-- Model of `lexer.rs lookup_op`: longest-match traversal of the punctuator
trie, consuming matched characters through the splice-aware cursor. -/
def lookupOp (s : Source) (map : List (Char × OpNode)) : Option PpToken × Source :=
  match h : peekSpliced s with
  | some sch =>
    match hf : assocFind sch.ch map with
    | some op =>
      let s1 := (nextSpliced s).2
      match hn : op.next with
      | some nextMap =>
        match lookupOp s1 nextMap with
        | (some token, s2) => (some token, s2)
        | (none, s2) => (some op.token, s2)
      | none => (some op.token, s1)
    | none => (none, s)
  | none => (none, s)
termination_by sizeOf map
decreasing_by
  have h1 := assocFind_sizeOf hf
  have h2 := opNode_next_sizeOf hn
  omega

theorem lookupOp_nf {s : Source} {map : List (Char × OpNode)} (h : peekSpliced s = none) :
    lookupOp s map = (none, s) := by
  rw [lookupOp]
  split <;> simp_all

theorem lookupOp_nokey {s : Source} {map : List (Char × OpNode)} {sch : SourceChar}
    (h : peekSpliced s = some sch) (hf : assocFind sch.ch map = none) :
    lookupOp s map = (none, s) := by
  rw [lookupOp]
  split <;> simp_all
  all_goals try (split <;> simp_all)
  all_goals try (split <;> simp_all)
  all_goals try (split <;> simp_all)

theorem lookupOp_leaf {s : Source} {map : List (Char × OpNode)} {sch : SourceChar}
    {op : OpNode} (h : peekSpliced s = some sch) (hf : assocFind sch.ch map = some op)
    (hn : op.next = none) : lookupOp s map = (some op.token, (nextSpliced s).2) := by
  rw [lookupOp]
  split <;> simp_all
  all_goals try (split <;> simp_all)
  all_goals try (split <;> simp_all)
  all_goals try (split <;> simp_all)

theorem lookupOp_node_hit {s : Source} {map nextMap : List (Char × OpNode)}
    {sch : SourceChar} {op : OpNode} {t : PpToken} {s2 : Source}
    (h : peekSpliced s = some sch) (hf : assocFind sch.ch map = some op)
    (hn : op.next = some nextMap) (hi : lookupOp (nextSpliced s).2 nextMap = (some t, s2)) :
    lookupOp s map = (some t, s2) := by
  rw [lookupOp]
  split <;> simp_all
  all_goals try (split <;> simp_all)
  all_goals try (split <;> simp_all)
  all_goals try (split <;> simp_all)

theorem lookupOp_node_miss {s : Source} {map nextMap : List (Char × OpNode)}
    {sch : SourceChar} {op : OpNode} {s2 : Source}
    (h : peekSpliced s = some sch) (hf : assocFind sch.ch map = some op)
    (hn : op.next = some nextMap) (hi : lookupOp (nextSpliced s).2 nextMap = (none, s2)) :
    lookupOp s map = (some op.token, s2) := by
  rw [lookupOp]
  split <;> simp_all
  all_goals try (split <;> simp_all)
  all_goals try (split <;> simp_all)
  all_goals try (split <;> simp_all)

theorem nextSpliced_some_mu_lt {s : Source} {ch : SourceChar}
    (h : (nextSpliced s).1 = some ch) : mu (nextSpliced s).2 < mu s :=
  nextSpliced_mu_lt s (nextSpliced_some_ne_nil h)

/-- Model of the collection loop of `lexer.rs identifier`. -/
def identifierLoop (s : Source) (acc : List Char) : List Char × Source :=
  match h : peekSpliced s with
  | some ch =>
    if isAsciiAlphanumeric ch.ch || ch.ch = '_' then
      identifierLoop (nextSpliced s).2 (acc ++ [ch.ch])
    else (acc, s)
  | none => (acc, s)
termination_by mu s
decreasing_by
  exact nextSpliced_mu_lt s (peekSpliced_some_ne_nil h)

/-- Model of `lexer.rs identifier`. -/
def identifier (s : Source) : PpToken × Source :=
  let r := identifierLoop s []
  (PpToken.Identifier (String.mk r.1), r.2)

/-- Model of the collection loop of `lexer.rs ppnumber`. -/
def ppnumberLoop (s : Source) (acc : List Char) : List Char × Source :=
  match h : peekSpliced s with
  | some ch =>
    if ch.ch = 'e' ∨ ch.ch = 'E' then
      let acc1 := acc ++ [ch.ch]
      let s1 := (nextSpliced s).2
      match h2 : peekSpliced s1 with
      | some ch2 =>
        if ch2.ch = '+' ∨ ch2.ch = '-' then
          ppnumberLoop (nextSpliced s1).2 (acc1 ++ [ch2.ch])
        else ppnumberLoop s1 acc1
      | none => ppnumberLoop s1 acc1
    else if isAsciiAlphanumeric ch.ch || ch.ch = '_' || ch.ch = '.' then
      ppnumberLoop (nextSpliced s).2 (acc ++ [ch.ch])
    else (acc, s)
  | none => (acc, s)
termination_by mu s
decreasing_by
  · exact lt_trans (nextSpliced_mu_lt s1 (peekSpliced_some_ne_nil h2))
      (nextSpliced_mu_lt s (peekSpliced_some_ne_nil h))
  · exact nextSpliced_mu_lt s (peekSpliced_some_ne_nil h)
  · exact nextSpliced_mu_lt s (peekSpliced_some_ne_nil h)
  · exact nextSpliced_mu_lt s (peekSpliced_some_ne_nil h)

/-- Model of `lexer.rs ppnumber`. -/
def ppnumber (s : Source) : PpToken × Source :=
  let r := ppnumberLoop s []
  (PpToken.Number (String.mk r.1), r.2)

/-- Model of the hex-digit collection loop in `lexer.rs escape_sequence`
(the `'x'` arm). -/
def escapeHexLoop (s : Source) (acc : List Char) (pt : Point) :
    Except CcError (List Char) × Source :=
  match h : peekSpliced s with
  | some ch =>
    if isAsciiHexdigit ch.ch then
      escapeHexLoop (nextSpliced s).2 (acc ++ [ch.ch]) pt
    else (Except.ok acc, s)
  | none => (Except.error (CcError.errWithLoc "unterminated escape sequence" pt), s)
termination_by mu s
decreasing_by
  exact nextSpliced_mu_lt s (peekSpliced_some_ne_nil h)

/-- Model of the digit collection loop in `lexer.rs escape_sequence`
(the octal arm; the loop continues on any decimal digit). -/
def escapeOctLoop (s : Source) (acc : List Char) (pt : Point) :
    Except CcError (List Char) × Source :=
  match h : peekSpliced s with
  | some ch =>
    if !isAsciiDigit ch.ch && ch.ch != '8' && ch.ch != '9' then (Except.ok acc, s)
    else escapeOctLoop (nextSpliced s).2 (acc ++ [ch.ch]) pt
  | none => (Except.error (CcError.errWithLoc "unterminated escape sequence" pt), s)
termination_by mu s
decreasing_by
  exact nextSpliced_mu_lt s (peekSpliced_some_ne_nil h)

/-- Model of `lexer.rs escape_sequence`. Note that in the octal arm the first
digit is appended to the accumulator but not consumed from the stream, exactly
as in the source. -/
def escapeSequence (s : Source) (accum : List Char) (pt : Point) :
    Except CcError (List Char) × Source :=
  let accum := accum ++ ['\\']
  match h : peekSpliced s with
  | some ch =>
    if ch.ch = 'x' then
      escapeHexLoop (nextSpliced s).2 (accum ++ ['x']) pt
    else if '0' ≤ ch.ch ∧ ch.ch ≤ '7' then
      escapeOctLoop s (accum ++ [ch.ch]) pt
    else
      (Except.ok (accum ++ [ch.ch]), (nextSpliced s).2)
  | none => (Except.error (CcError.errWithLoc "unterminated escape sequence" pt), s)

theorem identifierLoop_rec {s : Source} {ch : SourceChar} {acc : List Char}
    (h : peekSpliced s = some ch) (hc : isAsciiAlphanumeric ch.ch || ch.ch = '_') :
    identifierLoop s acc = identifierLoop (nextSpliced s).2 (acc ++ [ch.ch]) := by
  rw [identifierLoop]
  split <;> simp_all

theorem identifierLoop_stop {s : Source} {ch : SourceChar} {acc : List Char}
    (h : peekSpliced s = some ch) (hc : ¬ (isAsciiAlphanumeric ch.ch || ch.ch = '_')) :
    identifierLoop s acc = (acc, s) := by
  rw [identifierLoop]
  split <;> simp_all

theorem identifierLoop_nf {s : Source} {acc : List Char} (h : peekSpliced s = none) :
    identifierLoop s acc = (acc, s) := by
  rw [identifierLoop]
  split <;> simp_all

theorem identifierLoop_mu_le (s : Source) (acc : List Char) :
    mu (identifierLoop s acc).2 ≤ mu s := by
  induction s, acc using identifierLoop.induct with
  | case1 s acc ch h hc ih =>
    rw [identifierLoop_rec h hc]
    exact le_trans ih (le_of_lt (nextSpliced_mu_lt s (peekSpliced_some_ne_nil h)))
  | case2 s acc ch h hc =>
    rw [identifierLoop_stop h hc]
  | case3 s acc h =>
    rw [identifierLoop_nf h]

theorem ppnumberLoop_e_sign {s : Source} {ch ch2 : SourceChar} {acc : List Char}
    (h : peekSpliced s = some ch) (he : ch.ch = 'e' ∨ ch.ch = 'E')
    (h2 : peekSpliced (nextSpliced s).2 = some ch2) (hs : ch2.ch = '+' ∨ ch2.ch = '-') :
    ppnumberLoop s acc =
      ppnumberLoop (nextSpliced (nextSpliced s).2).2 (acc ++ [ch.ch] ++ [ch2.ch]) := by
  rw [ppnumberLoop]
  split <;> simp_all
  split <;> simp_all

theorem ppnumberLoop_e_nosign {s : Source} {ch ch2 : SourceChar} {acc : List Char}
    (h : peekSpliced s = some ch) (he : ch.ch = 'e' ∨ ch.ch = 'E')
    (h2 : peekSpliced (nextSpliced s).2 = some ch2) (hs : ¬ (ch2.ch = '+' ∨ ch2.ch = '-')) :
    ppnumberLoop s acc = ppnumberLoop (nextSpliced s).2 (acc ++ [ch.ch]) := by
  rw [ppnumberLoop]
  split <;> simp_all
  split <;> simp_all

theorem ppnumberLoop_e_nf {s : Source} {ch : SourceChar} {acc : List Char}
    (h : peekSpliced s = some ch) (he : ch.ch = 'e' ∨ ch.ch = 'E')
    (h2 : peekSpliced (nextSpliced s).2 = none) :
    ppnumberLoop s acc = ppnumberLoop (nextSpliced s).2 (acc ++ [ch.ch]) := by
  rw [ppnumberLoop]
  split <;> simp_all
  split <;> simp_all

theorem ppnumberLoop_plain {s : Source} {ch : SourceChar} {acc : List Char}
    (h : peekSpliced s = some ch) (he : ¬ (ch.ch = 'e' ∨ ch.ch = 'E'))
    (hc : isAsciiAlphanumeric ch.ch || ch.ch = '_' || ch.ch = '.') :
    ppnumberLoop s acc = ppnumberLoop (nextSpliced s).2 (acc ++ [ch.ch]) := by
  rw [ppnumberLoop]
  split <;> simp_all

theorem ppnumberLoop_stop {s : Source} {ch : SourceChar} {acc : List Char}
    (h : peekSpliced s = some ch) (he : ¬ (ch.ch = 'e' ∨ ch.ch = 'E'))
    (hc : ¬ (isAsciiAlphanumeric ch.ch || ch.ch = '_' || ch.ch = '.')) :
    ppnumberLoop s acc = (acc, s) := by
  rw [ppnumberLoop]
  split <;> simp_all

theorem ppnumberLoop_nf {s : Source} {acc : List Char} (h : peekSpliced s = none) :
    ppnumberLoop s acc = (acc, s) := by
  rw [ppnumberLoop]
  split <;> simp_all

theorem ppnumberLoop_mu_le (s : Source) (acc : List Char) :
    mu (ppnumberLoop s acc).2 ≤ mu s := by
  induction s, acc using ppnumberLoop.induct with
  | case1 s acc ch h he acc1 s1 ch2 h2 hs ih =>
    rw [ppnumberLoop_e_sign h he h2 hs]
    have ih2 : mu (ppnumberLoop (nextSpliced (nextSpliced s).2).2
        (acc ++ [ch.ch] ++ [ch2.ch])).2 ≤ mu (nextSpliced (nextSpliced s).2).2 := ih
    have k1 := nextSpliced_mu_lt s (peekSpliced_some_ne_nil h)
    have k2 := nextSpliced_mu_lt (nextSpliced s).2 (peekSpliced_some_ne_nil h2)
    omega
  | case2 s acc ch h he acc1 s1 ch2 h2 hs ih =>
    rw [ppnumberLoop_e_nosign h he h2 hs]
    have ih2 : mu (ppnumberLoop (nextSpliced s).2 (acc ++ [ch.ch])).2 ≤
        mu (nextSpliced s).2 := ih
    have k1 := nextSpliced_mu_lt s (peekSpliced_some_ne_nil h)
    omega
  | case3 s acc ch h he acc1 s1 h2 ih =>
    rw [ppnumberLoop_e_nf h he h2]
    have ih2 : mu (ppnumberLoop (nextSpliced s).2 (acc ++ [ch.ch])).2 ≤
        mu (nextSpliced s).2 := ih
    have k1 := nextSpliced_mu_lt s (peekSpliced_some_ne_nil h)
    omega
  | case4 s acc ch h he hc ih =>
    rw [ppnumberLoop_plain h he hc]
    have k1 := nextSpliced_mu_lt s (peekSpliced_some_ne_nil h)
    have k2 := le_trans ih (le_of_lt k1)
    omega
  | case5 s acc ch h he hc =>
    rw [ppnumberLoop_stop h he hc]
  | case6 s acc h =>
    rw [ppnumberLoop_nf h]

theorem escapeHexLoop_rec {s : Source} {ch : SourceChar} {acc : List Char} {pt : Point}
    (h : peekSpliced s = some ch) (hc : isAsciiHexdigit ch.ch) :
    escapeHexLoop s acc pt = escapeHexLoop (nextSpliced s).2 (acc ++ [ch.ch]) pt := by
  rw [escapeHexLoop]
  split <;> simp_all

theorem escapeHexLoop_stop {s : Source} {ch : SourceChar} {acc : List Char} {pt : Point}
    (h : peekSpliced s = some ch) (hc : ¬ isAsciiHexdigit ch.ch) :
    escapeHexLoop s acc pt = (Except.ok acc, s) := by
  rw [escapeHexLoop]
  split <;> simp_all

theorem escapeHexLoop_nf {s : Source} {acc : List Char} {pt : Point}
    (h : peekSpliced s = none) :
    escapeHexLoop s acc pt = (Except.error (CcError.errWithLoc "unterminated escape sequence" pt), s) := by
  rw [escapeHexLoop]
  split <;> simp_all

theorem escapeHexLoop_mu_le (s : Source) (acc : List Char) (pt : Point) :
    mu (escapeHexLoop s acc pt).2 ≤ mu s := by
  induction s, acc, pt using escapeHexLoop.induct with
  | case1 s acc pt ch h hc ih =>
    rw [escapeHexLoop_rec h hc]
    have k1 := nextSpliced_mu_lt s (peekSpliced_some_ne_nil h)
    omega
  | case2 s acc pt ch h hc =>
    rw [escapeHexLoop_stop h hc]
  | case3 s acc pt h =>
    rw [escapeHexLoop_nf h]

theorem escapeOctLoop_stop {s : Source} {ch : SourceChar} {acc : List Char} {pt : Point}
    (h : peekSpliced s = some ch)
    (hc : (!isAsciiDigit ch.ch && ch.ch != '8' && ch.ch != '9') = true) :
    escapeOctLoop s acc pt = (Except.ok acc, s) := by
  rw [escapeOctLoop]
  split <;> simp_all

theorem escapeOctLoop_rec {s : Source} {ch : SourceChar} {acc : List Char} {pt : Point}
    (h : peekSpliced s = some ch)
    (hc : ¬ (!isAsciiDigit ch.ch && ch.ch != '8' && ch.ch != '9') = true) :
    escapeOctLoop s acc pt = escapeOctLoop (nextSpliced s).2 (acc ++ [ch.ch]) pt := by
  rw [escapeOctLoop]
  split <;> simp_all

theorem escapeOctLoop_nf {s : Source} {acc : List Char} {pt : Point}
    (h : peekSpliced s = none) :
    escapeOctLoop s acc pt = (Except.error (CcError.errWithLoc "unterminated escape sequence" pt), s) := by
  rw [escapeOctLoop]
  split <;> simp_all

theorem escapeOctLoop_mu_le (s : Source) (acc : List Char) (pt : Point) :
    mu (escapeOctLoop s acc pt).2 ≤ mu s := by
  induction s, acc, pt using escapeOctLoop.induct with
  | case1 s acc pt ch h hc =>
    rw [escapeOctLoop_stop h hc]
  | case2 s acc pt ch h hc ih =>
    rw [escapeOctLoop_rec h hc]
    have k1 := nextSpliced_mu_lt s (peekSpliced_some_ne_nil h)
    omega
  | case3 s acc pt h =>
    rw [escapeOctLoop_nf h]

theorem escapeSequence_mu_le (s : Source) (accum : List Char) (pt : Point) :
    mu (escapeSequence s accum pt).2 ≤ mu s := by
  rw [escapeSequence]
  split
  · split
    · exact le_trans (escapeHexLoop_mu_le _ _ _) (nextSpliced_mu_le s)
    · split
      · exact escapeOctLoop_mu_le s _ _
      · exact nextSpliced_mu_le s
  · exact le_refl _

/-- Model of the collection loop of `lexer.rs textlit`. -/
def textlitLoop (s : Source) (isChar : Bool) (pt : Point) (acc : List Char) :
    Except CcError (List Char) × Source :=
  match h : peekSpliced s with
  | some ch =>
    if ch.ch = '\n' then
      (Except.error (CcError.errWithLoc "unterminated character constant" pt), s)
    else if ch.ch = '\'' ∧ isChar then
      (Except.ok acc, (nextSpliced s).2)
    else if ch.ch = '"' ∧ ¬ isChar = true then
      (Except.ok acc, (nextSpliced s).2)
    else if ch.ch = '\\' then
      match hesc : escapeSequence (nextSpliced s).2 acc pt with
      | (Except.ok acc2, s2) => textlitLoop s2 isChar pt acc2
      | (Except.error e, s2) => (Except.error e, s2)
    else
      textlitLoop (nextSpliced s).2 isChar pt (acc ++ [ch.ch])
  | none => (Except.error (CcError.errWithLoc "unterminated character constant" pt), s)
termination_by mu s
decreasing_by
  · have h1 : (escapeSequence (nextSpliced s).2 acc pt).2 = s2 := by rw [hesc]
    have h2 := escapeSequence_mu_le (nextSpliced s).2 acc pt
    rw [h1] at h2
    have h3 := nextSpliced_mu_lt s (peekSpliced_some_ne_nil h)
    omega
  · exact nextSpliced_mu_lt s (peekSpliced_some_ne_nil h)

/-- Model of `lexer.rs textlit`. -/
def textlit (s : Source) (isChar : Bool) (pt : Point) : Except CcError PpToken × Source :=
  match textlitLoop s isChar pt [] with
  | (Except.ok cs, s1) =>
    if isChar then (Except.ok (PpToken.CharLiteral (String.mk cs)), s1)
    else (Except.ok (PpToken.StringLiteral (String.mk cs)), s1)
  | (Except.error e, s1) => (Except.error e, s1)

/-- Model of `lexer.rs skip_block_comment`, with the `last_star` flag of the
loop made an explicit argument (the function is entered with it false). -/
def skipBlockComment (s : Source) (loc : Point) (lastStar : Bool) :
    Except CcError Unit × Source :=
  match h : nextSpliced s with
  | (some ch, s1) =>
    if ch.ch = '*' then skipBlockComment s1 loc true
    else if ch.ch = '/' then
      if lastStar then (Except.ok (), s1) else skipBlockComment s1 loc lastStar
    else skipBlockComment s1 loc false
  | (none, s1) =>
    (Except.error (CcError.errWithLoc "unterminated block comment." loc), s1)
termination_by mu s
decreasing_by
  · have h1 : (nextSpliced s).1 = some ch := by rw [h]
    have h2 : (nextSpliced s).2 = s1 := by rw [h]
    have h3 := nextSpliced_some_mu_lt h1
    rw [h2] at h3
    exact h3
  · have h1 : (nextSpliced s).1 = some ch := by rw [h]
    have h2 : (nextSpliced s).2 = s1 := by rw [h]
    have h3 := nextSpliced_some_mu_lt h1
    rw [h2] at h3
    exact h3
  · have h1 : (nextSpliced s).1 = some ch := by rw [h]
    have h2 : (nextSpliced s).2 = s1 := by rw [h]
    have h3 := nextSpliced_some_mu_lt h1
    rw [h2] at h3
    exact h3

/-- Model of `lexer.rs skip_line_comment` (note the extra `next_spliced` call
in the end-of-input arm, exactly as in the source). -/
def skipLineComment (s : Source) (loc : Point) : Except CcError Unit × Source :=
  match h : nextSpliced s with
  | (some ch, s1) =>
    if ch.ch = '\n' then (Except.ok (), s1)
    else skipLineComment s1 loc
  | (none, s1) => (Except.ok (), (nextSpliced s1).2)
termination_by mu s
decreasing_by
  have h1 : (nextSpliced s).1 = some ch := by rw [h]
  have h2 : (nextSpliced s).2 = s1 := by rw [h]
  have h3 := nextSpliced_some_mu_lt h1
  rw [h2] at h3
  exact h3

theorem skipBlockComment_star {s s1 : Source} {ch : SourceChar} {loc : Point} {lastStar : Bool}
    (h : nextSpliced s = (some ch, s1)) (hc : ch.ch = '*') :
    skipBlockComment s loc lastStar = skipBlockComment s1 loc true := by
  rw [skipBlockComment]
  split <;> simp_all

theorem skipBlockComment_done {s s1 : Source} {ch : SourceChar} {loc : Point}
    (h : nextSpliced s = (some ch, s1)) (hc : ch.ch = '/') :
    skipBlockComment s loc true = (Except.ok (), s1) := by
  rw [skipBlockComment]
  split <;> simp_all

theorem skipBlockComment_slash_cont {s s1 : Source} {ch : SourceChar} {loc : Point}
    (h : nextSpliced s = (some ch, s1)) (hc : ch.ch = '/') :
    skipBlockComment s loc false = skipBlockComment s1 loc false := by
  rw [skipBlockComment]
  split <;> simp_all

theorem skipBlockComment_other {s s1 : Source} {ch : SourceChar} {loc : Point}
    {lastStar : Bool} (h : nextSpliced s = (some ch, s1)) (hc1 : ch.ch ≠ '*')
    (hc2 : ch.ch ≠ '/') :
    skipBlockComment s loc lastStar = skipBlockComment s1 loc false := by
  rw [skipBlockComment]
  split <;> simp_all

theorem skipBlockComment_nf {s s1 : Source} {loc : Point} {lastStar : Bool}
    (h : nextSpliced s = (none, s1)) :
    skipBlockComment s loc lastStar =
      (Except.error (CcError.errWithLoc "unterminated block comment." loc), s1) := by
  rw [skipBlockComment]
  split <;> simp_all

theorem skipBlockComment_mu_le (s : Source) (loc : Point) (lastStar : Bool) :
    mu (skipBlockComment s loc lastStar).2 ≤ mu s := by
  induction s, loc, lastStar using skipBlockComment.induct with
  | case1 s loc lastStar ch s1 h hc ih =>
    rw [skipBlockComment_star h hc]
    have h1 : (nextSpliced s).1 = some ch := by rw [h]
    have h2 : (nextSpliced s).2 = s1 := by rw [h]
    have h3 := nextSpliced_some_mu_lt h1
    rw [h2] at h3
    omega
  | case2 s loc ch s1 h hns hc =>
    rw [skipBlockComment_done h hc]
    dsimp only
    have h2 : (nextSpliced s).2 = s1 := by rw [h]
    have h3 := nextSpliced_mu_le s
    rw [h2] at h3
    omega
  | case3 s loc lastStar ch s1 h hns hc hl ih =>
    have hl2 : lastStar = false := by
      cases hlv : lastStar
      · rfl
      · exact absurd hlv hl
    subst hl2
    rw [skipBlockComment_slash_cont h hc]
    have h1 : (nextSpliced s).1 = some ch := by rw [h]
    have h2 : (nextSpliced s).2 = s1 := by rw [h]
    have h3 := nextSpliced_some_mu_lt h1
    rw [h2] at h3
    omega
  | case4 s loc lastStar ch s1 h hc1 hc2 ih =>
    rw [skipBlockComment_other h hc1 hc2]
    have h1 : (nextSpliced s).1 = some ch := by rw [h]
    have h2 : (nextSpliced s).2 = s1 := by rw [h]
    have h3 := nextSpliced_some_mu_lt h1
    rw [h2] at h3
    omega
  | case5 s loc lastStar s1 h =>
    rw [skipBlockComment_nf h]
    dsimp only
    have h2 : (nextSpliced s).2 = s1 := by rw [h]
    have h3 := nextSpliced_mu_le s
    rw [h2] at h3
    omega

theorem skipLineComment_nl {s s1 : Source} {ch : SourceChar} {loc : Point}
    (h : nextSpliced s = (some ch, s1)) (hc : ch.ch = '\n') :
    skipLineComment s loc = (Except.ok (), s1) := by
  rw [skipLineComment]
  split <;> simp_all

theorem skipLineComment_other {s s1 : Source} {ch : SourceChar} {loc : Point}
    (h : nextSpliced s = (some ch, s1)) (hc : ch.ch ≠ '\n') :
    skipLineComment s loc = skipLineComment s1 loc := by
  rw [skipLineComment]
  split <;> simp_all

theorem skipLineComment_nf {s s1 : Source} {loc : Point}
    (h : nextSpliced s = (none, s1)) :
    skipLineComment s loc = (Except.ok (), (nextSpliced s1).2) := by
  rw [skipLineComment]
  split <;> simp_all

theorem skipLineComment_mu_le (s : Source) (loc : Point) :
    mu (skipLineComment s loc).2 ≤ mu s := by
  induction s, loc using skipLineComment.induct with
  | case1 s loc ch s1 h hc =>
    rw [skipLineComment_nl h hc]
    dsimp only
    have h2 : (nextSpliced s).2 = s1 := by rw [h]
    have h3 := nextSpliced_mu_le s
    rw [h2] at h3
    omega
  | case2 s loc ch s1 h hc ih =>
    rw [skipLineComment_other h hc]
    have h1 : (nextSpliced s).1 = some ch := by rw [h]
    have h2 : (nextSpliced s).2 = s1 := by rw [h]
    have h3 := nextSpliced_some_mu_lt h1
    rw [h2] at h3
    omega
  | case3 s loc s1 h =>
    rw [skipLineComment_nf h]
    dsimp only
    have h2 : (nextSpliced s).2 = s1 := by rw [h]
    have h3 := nextSpliced_mu_le s
    have h4 := nextSpliced_mu_le s1
    rw [h2] at h3
    omega

theorem lookupOp_mu_le (s : Source) (map : List (Char × OpNode)) :
    mu (lookupOp s map).2 ≤ mu s := by
  induction s, map using lookupOp.induct with
  | case1 s map sch h op hf s1 nextMap hn token s2 hi ih =>
    rw [lookupOp_node_hit h hf hn hi]
    dsimp only
    have k1 := nextSpliced_mu_lt s (peekSpliced_some_ne_nil h)
    have ih2 : mu (lookupOp (nextSpliced s).2 nextMap).2 ≤ mu (nextSpliced s).2 := ih
    have hs2 : (lookupOp (nextSpliced s).2 nextMap).2 = s2 := by rw [hi]
    rw [hs2] at ih2
    omega
  | case2 s map sch h op hf s1 nextMap hn s2 hi ih =>
    rw [lookupOp_node_miss h hf hn hi]
    dsimp only
    have k1 := nextSpliced_mu_lt s (peekSpliced_some_ne_nil h)
    have ih2 : mu (lookupOp (nextSpliced s).2 nextMap).2 ≤ mu (nextSpliced s).2 := ih
    have hs2 : (lookupOp (nextSpliced s).2 nextMap).2 = s2 := by rw [hi]
    rw [hs2] at ih2
    omega
  | case3 s map sch h op hf hn =>
    rw [lookupOp_leaf h hf hn]
    dsimp only
    have k1 := nextSpliced_mu_lt s (peekSpliced_some_ne_nil h)
    omega
  | case4 s map sch h hf =>
    rw [lookupOp_nokey h hf]
  | case5 s map h =>
    rw [lookupOp_nf h]

theorem lookupOp_some_mu_lt {s s2 : Source} {map : List (Char × OpNode)} {t : PpToken}
    (h : lookupOp s map = (some t, s2)) : mu s2 < mu s := by
  match hp : peekSpliced s with
  | none =>
    rw [lookupOp_nf hp] at h
    cases h
  | some sch =>
    match hf : assocFind sch.ch map with
    | none =>
      rw [lookupOp_nokey hp hf] at h
      cases h
    | some op =>
      have k1 := nextSpliced_mu_lt s (peekSpliced_some_ne_nil hp)
      match hn : op.next with
      | none =>
        rw [lookupOp_leaf hp hf hn] at h
        have hs2 : s2 = (nextSpliced s).2 := by
          injection h with ha hb
          rw [hb]
        have k2 : mu s2 = mu (nextSpliced s).2 := by rw [hs2]
        omega
      | some nextMap =>
        have hrec := lookupOp_mu_le (nextSpliced s).2 nextMap
        match hi : lookupOp (nextSpliced s).2 nextMap with
        | (some t2, s3) =>
          rw [lookupOp_node_hit hp hf hn hi] at h
          have hs2 : s2 = s3 := by
            injection h with ha hb
            rw [hb]
          have k2 : mu s2 = mu s3 := by rw [hs2]
          rw [hi] at hrec
          dsimp only at hrec
          omega
        | (none, s3) =>
          rw [lookupOp_node_miss hp hf hn hi] at h
          have hs2 : s2 = s3 := by
            injection h with ha hb
            rw [hb]
          have k2 : mu s2 = mu s3 := by rw [hs2]
          rw [hi] at hrec
          dsimp only at hrec
          omega

theorem lookupOp_none_state {s s2 : Source} {map : List (Char × OpNode)}
    (h : lookupOp s map = (none, s2)) : s2 = s := by
  match hp : peekSpliced s with
  | none =>
    rw [lookupOp_nf hp] at h
    injection h with ha hb
    rw [hb]
  | some sch =>
    match hf : assocFind sch.ch map with
    | none =>
      rw [lookupOp_nokey hp hf] at h
      injection h with ha hb
      rw [hb]
    | some op =>
      match hn : op.next with
      | none =>
        rw [lookupOp_leaf hp hf hn] at h
        cases h
      | some nextMap =>
        match hi : lookupOp (nextSpliced s).2 nextMap with
        | (some t2, s3) =>
          rw [lookupOp_node_hit hp hf hn hi] at h
          cases h
        | (none, s3) =>
          rw [lookupOp_node_miss hp hf hn hi] at h
          cases h

/-- Model of the body of `lexer.rs next_token`: the whitespace loop with the
local `newline` flag made explicit, returning the token (or error), the
stream, the trivia buffer and the final flag. Note that the whitespace arm
consumes with the raw `Source::next`, exactly as the source does. -/
def nextTokenAux (s : Source) (emit : List Char) (nl : Bool) :
    Except CcError PpToken × Source × List Char × Bool :=
  match h : peekSpliced s with
  | none => (Except.ok PpToken.Eof, s, emit, nl)
  | some ch =>
    if isAsciiWhitespace ch.ch then
      nextTokenAux s.next.2 (emit ++ [ch.ch]) (if ch.ch = '\n' then true else nl)
    else if isAsciiAlphabetic ch.ch || ch.ch = '_' then
      let r := identifier s
      (Except.ok r.1, r.2, emit, nl)
    else
      let inum : Nat := if ch.ch = '.' then 1 else 0
      let isNumber : Bool :=
        match peekSplicedN s inum with
        | some ch2 => isAsciiDigit ch2.ch
        | none => false
      if isNumber then
        let r := ppnumber s
        (Except.ok r.1, r.2, emit, nl)
      else if ch.ch = '\'' then
        let r := textlit (nextSpliced s).2 true ch.pt
        (r.1, r.2, emit, nl)
      else if ch.ch = '"' then
        let r := textlit (nextSpliced s).2 false ch.pt
        (r.1, r.2, emit, nl)
      else
        match hop : lookupOp s OPERATORS with
        | (some PpToken.BlockComment, s1) =>
          match hskip : skipBlockComment s1 ch.pt false with
          | (Except.ok _, s2) => nextTokenAux s2 (emit ++ [' ']) nl
          | (Except.error e, s2) => (Except.error e, s2, emit, nl)
        | (some PpToken.LineComment, s1) =>
          match hskip : skipLineComment s1 ch.pt with
          | (Except.ok _, s2) => nextTokenAux s2 (emit ++ [' ']) nl
          | (Except.error e, s2) => (Except.error e, s2, emit, nl)
        | (some op, s1) => (Except.ok op, s1, emit, nl)
        | (none, s1) =>
          match peekSpliced s1 with
          | some ch2 => (Except.ok (PpToken.Other ch2.ch), (nextSpliced s1).2, emit, nl)
          | none => (Except.ok PpToken.Eof, s1, emit, nl)
termination_by mu s
decreasing_by
  · exact next_mu_lt s (peekSpliced_some_ne_nil h)
  · have hl : lookupOp s OPERATORS = (some PpToken.BlockComment, s1) := hop
    have k1 := lookupOp_some_mu_lt hl
    have k2 := skipBlockComment_mu_le s1 ch.pt false
    have k3 : (skipBlockComment s1 ch.pt false).2 = s2 := by rw [hskip]
    rw [k3] at k2
    omega
  · have hl : lookupOp s OPERATORS = (some PpToken.LineComment, s1) := hop
    have k1 := lookupOp_some_mu_lt hl
    have k2 := skipLineComment_mu_le s1 ch.pt
    have k3 : (skipLineComment s1 ch.pt).2 = s2 := by rw [hskip]
    rw [k3] at k2
    omega

/-- Model of the public `lexer.rs next_token` entry point: the `newline` flag
starts false and is dropped on return, as in the source. -/
def nextToken (s : Source) (emit : List Char) :
    Except CcError PpToken × Source × List Char :=
  let r := nextTokenAux s emit false
  (r.1, r.2.1, r.2.2.1)

/-- The first `k` results of repeatedly calling `next_token` on a stream,
each call starting from an empty trivia buffer. -/
def lexList : Source → Nat → List (Except CcError PpToken)
  | _, 0 => []
  | s, k + 1 =>
    let r := nextToken s []
    r.1 :: lexList r.2.1 k

/-- The stream state after one `next_token` call. -/
def lexStep (s : Source) : Source :=
  (nextToken s []).2.1

/-- The token (or error) produced by one `next_token` call. -/
def lexTok (s : Source) : Except CcError PpToken :=
  (nextToken s []).1

/-- Fuel-based evaluator for `nextSpliced`; agrees with it whenever the fuel
exceeds the measure (`nextSplicedF_eq`), and is structurally recursive so that
the kernel can evaluate concrete instances. -/
def nextSplicedF : Nat → Source → Option SourceChar × Source
  | 0, s => (none, s)
  | fuel + 1, s =>
    match s.peek with
    | some ch =>
      if ch.ch = '\\' then
        let s1 := s.next.2
        match s1.peek with
        | some ch2 =>
          if ch2.ch = '\n' then nextSplicedF fuel s1.next.2 else (some ch, s1)
        | none => (some ch, s1)
      else s.next
    | none => s.next

theorem nextSplicedF_eq (fuel : Nat) (s : Source) (hf : mu s < fuel) :
    nextSplicedF fuel s = nextSpliced s := by
  induction fuel generalizing s with
  | zero => omega
  | succ fuel ih =>
    match hp : s.peek with
    | none =>
      rw [nextSpliced_none hp]
      simp [nextSplicedF, hp]
    | some ch =>
      by_cases hb : ch.ch = '\\'
      · match h2 : s.next.2.peek with
        | some ch2 =>
          by_cases hn : ch2.ch = '\n'
          · rw [nextSpliced_bs_nl hp hb h2 hn]
            have k1 := next_mu_lt s (peek_some_ne_nil hp)
            have k2 := next_mu_lt s.next.2 (peek_some_ne_nil h2)
            rw [← ih s.next.2.next.2 (by omega)]
            simp [nextSplicedF, hp, hb, h2, hn]
          · rw [nextSpliced_bs_stop hp hb h2 hn]
            simp [nextSplicedF, hp, hb, h2, hn]
        | none =>
          rw [nextSpliced_bs_end hp hb h2]
          simp [nextSplicedF, hp, hb, h2]
      · rw [nextSpliced_plain hp hb]
        simp [nextSplicedF, hp, hb]

/-- Self-fueled evaluator for `nextSpliced`. -/
def nextSplicedE (s : Source) : Option SourceChar × Source :=
  nextSplicedF (mu s + 1) s

theorem nextSplicedE_eq (s : Source) : nextSplicedE s = nextSpliced s :=
  nextSplicedF_eq (mu s + 1) s (by omega)

/-- Fuel-based evaluator for `peekSplicedAux`. -/
def peekSplicedAuxF : Nat → Source → Nat → Option SourceChar
  | 0, _, _ => none
  | fuel + 1, s, n =>
    match peekNT s n with
    | some ch =>
      if ch.ch = '\\' then
        match peekNT s (n + 1) with
        | some ch2 => if ch2.ch = '\n' then peekSplicedAuxF fuel s (n + 2) else some ch
        | none => some ch
      else peekNT s n
    | none => peekNT s n

theorem peekSplicedAuxF_eq (fuel : Nat) (s : Source) (n : Nat) (hf : mu s - n < fuel) :
    peekSplicedAuxF fuel s n = peekSplicedAux s n := by
  induction fuel generalizing n with
  | zero => omega
  | succ fuel ih =>
    match hp : peekNT s n with
    | none =>
      rw [peekSplicedAux_nf hp]
      simp [peekSplicedAuxF, hp]
    | some ch =>
      by_cases hb : ch.ch = '\\'
      · match h2 : peekNT s (n + 1) with
        | some ch2 =>
          by_cases hn : ch2.ch = '\n'
          · rw [peekSplicedAux_bs_nl hp hb h2 hn]
            have k1 := peekNT_some_mu h2
            rw [← ih (n + 2) (by omega)]
            simp [peekSplicedAuxF, hp, hb, h2, hn]
          · rw [peekSplicedAux_bs_stop hp hb h2 hn]
            simp [peekSplicedAuxF, hp, hb, h2, hn]
        | none =>
          rw [peekSplicedAux_bs_end hp hb h2]
          simp [peekSplicedAuxF, hp, hb, h2]
      · rw [peekSplicedAux_plain hp hb]
        simp [peekSplicedAuxF, hp, hb]

/-- Self-fueled evaluator for `peekSpliced`. -/
def peekSplicedE (s : Source) : Option SourceChar :=
  peekSplicedAuxF (mu s + 1) s 0

theorem peekSplicedE_eq (s : Source) : peekSplicedE s = peekSpliced s :=
  peekSplicedAuxF_eq (mu s + 1) s 0 (by omega)

/-- Fuel-based evaluator for `peekSplicedNAux`. -/
def peekSplicedNAuxF : Nat → Source → Nat → Nat → Option SourceChar
  | 0, _, _, _ => none
  | fuel + 1, s, n, i =>
    match peekNT s i with
    | some ch =>
      if ch.ch = '\\' then
        match peekNT s (i + 1) with
        | some ch2 => if ch2.ch = '\n' then peekSplicedNAuxF fuel s n (i + 2) else some ch
        | none => some ch
      else
        if n = 0 then peekNT s i else peekSplicedNAuxF fuel s (n - 1) (i + 1)
    | none =>
      if n = 0 then peekNT s i else peekSplicedNAuxF fuel s (n - 1) (i + 1)

theorem peekSplicedNAuxF_eq (fuel : Nat) (s : Source) (n i : Nat)
    (hf : n + (mu s - i) < fuel) :
    peekSplicedNAuxF fuel s n i = peekSplicedNAux s n i := by
  induction fuel generalizing n i with
  | zero => omega
  | succ fuel ih =>
    match hp : peekNT s i with
    | none =>
      by_cases hn0 : n = 0
      · subst hn0
        rw [peekSplicedNAux_nf_zero hp]
        simp [peekSplicedNAuxF, hp]
      · rw [peekSplicedNAux_nf_succ hp hn0]
        rw [← ih (n - 1) (i + 1) (by omega)]
        simp [peekSplicedNAuxF, hp, hn0]
    | some ch =>
      by_cases hb : ch.ch = '\\'
      · match h2 : peekNT s (i + 1) with
        | some ch2 =>
          by_cases hnl : ch2.ch = '\n'
          · rw [peekSplicedNAux_bs_nl hp hb h2 hnl]
            have k1 := peekNT_some_mu h2
            rw [← ih n (i + 2) (by omega)]
            simp [peekSplicedNAuxF, hp, hb, h2, hnl]
          · rw [peekSplicedNAux_bs_stop hp hb h2 hnl]
            simp [peekSplicedNAuxF, hp, hb, h2, hnl]
        | none =>
          rw [peekSplicedNAux_bs_end hp hb h2]
          simp [peekSplicedNAuxF, hp, hb, h2]
      · by_cases hn0 : n = 0
        · subst hn0
          rw [peekSplicedNAux_plain_zero hp hb]
          simp [peekSplicedNAuxF, hp, hb]
        · rw [peekSplicedNAux_plain_succ hp hb hn0]
          rw [← ih (n - 1) (i + 1) (by omega)]
          simp [peekSplicedNAuxF, hp, hb, hn0]

/-- Self-fueled evaluator for `peekSplicedN`. -/
def peekSplicedNE (s : Source) (n : Nat) : Option SourceChar :=
  peekSplicedNAuxF (n + mu s + 1) s n 0

theorem peekSplicedNE_eq (s : Source) (n : Nat) : peekSplicedNE s n = peekSplicedN s n :=
  peekSplicedNAuxF_eq (n + mu s + 1) s n 0 (by omega)

/-- Fuel-based evaluator for `lookupOp` (the fuel bounds the trie depth). -/
def lookupOpF : Nat → Source → List (Char × OpNode) → Option PpToken × Source
  | 0, s, _ => (none, s)
  | fuel + 1, s, map =>
    match peekSplicedE s with
    | some sch =>
      match assocFind sch.ch map with
      | some op =>
        let s1 := (nextSplicedE s).2
        match op.next with
        | some nextMap =>
          match lookupOpF fuel s1 nextMap with
          | (some token, s2) => (some token, s2)
          | (none, s2) => (some op.token, s2)
        | none => (some op.token, s1)
      | none => (none, s)
    | none => (none, s)

theorem lookupOpF_eq (fuel : Nat) (s : Source) (map : List (Char × OpNode))
    (hf : sizeOf map < fuel) : lookupOpF fuel s map = lookupOp s map := by
  induction fuel generalizing s map with
  | zero => omega
  | succ fuel ih =>
    match hp : peekSpliced s with
    | none =>
      rw [lookupOp_nf hp]
      simp [lookupOpF, peekSplicedE_eq, hp]
    | some sch =>
      match hfd : assocFind sch.ch map with
      | none =>
        rw [lookupOp_nokey hp hfd]
        simp [lookupOpF, peekSplicedE_eq, hp, hfd]
      | some op =>
        match hn : op.next with
        | none =>
          rw [lookupOp_leaf hp hfd hn]
          simp [lookupOpF, peekSplicedE_eq, nextSplicedE_eq, hp, hfd, hn]
        | some nextMap =>
          have hsz1 := assocFind_sizeOf hfd
          have hsz2 := opNode_next_sizeOf hn
          have hrec := ih (nextSpliced s).2 nextMap (by omega)
          match hi : lookupOp (nextSpliced s).2 nextMap with
          | (some token, s2) =>
            rw [lookupOp_node_hit hp hfd hn hi]
            rw [hi] at hrec
            simp [lookupOpF, peekSplicedE_eq, nextSplicedE_eq, hp, hfd, hn, hrec]
          | (none, s2) =>
            rw [lookupOp_node_miss hp hfd hn hi]
            rw [hi] at hrec
            simp [lookupOpF, peekSplicedE_eq, nextSplicedE_eq, hp, hfd, hn, hrec]

/-- Constant-fuel evaluator for `lookupOp` (1000000 exceeds the size of every
table the scanner consults, chiefly `OPERATORS`). -/
def lookupOpE (s : Source) (map : List (Char × OpNode)) : Option PpToken × Source :=
  lookupOpF 1000000 s map

theorem lookupOpE_eq (s : Source) (map : List (Char × OpNode))
    (hsz : sizeOf map < 1000000) : lookupOpE s map = lookupOp s map :=
  lookupOpF_eq 1000000 s map hsz

theorem sizeOf_OPERATORS_lt : sizeOf OPERATORS < 1000000 := by decide

theorem lookupOpE_eq_OPERATORS (s : Source) :
    lookupOpE s OPERATORS = lookupOp s OPERATORS :=
  lookupOpE_eq s OPERATORS sizeOf_OPERATORS_lt

/-- Fuel-based evaluator for `identifierLoop`. -/
def identifierLoopF : Nat → Source → List Char → List Char × Source
  | 0, s, acc => (acc, s)
  | fuel + 1, s, acc =>
    match peekSplicedE s with
    | some ch =>
      if isAsciiAlphanumeric ch.ch || ch.ch = '_' then
        identifierLoopF fuel (nextSplicedE s).2 (acc ++ [ch.ch])
      else (acc, s)
    | none => (acc, s)

theorem identifierLoopF_eq (fuel : Nat) (s : Source) (acc : List Char)
    (hf : mu s < fuel) : identifierLoopF fuel s acc = identifierLoop s acc := by
  induction fuel generalizing s acc with
  | zero => omega
  | succ fuel ih =>
    match hp : peekSpliced s with
    | none =>
      rw [identifierLoop_nf hp]
      simp [identifierLoopF, peekSplicedE_eq, hp]
    | some ch =>
      by_cases hc : isAsciiAlphanumeric ch.ch || ch.ch = '_'
      · rw [identifierLoop_rec hp hc]
        have k1 := nextSpliced_mu_lt s (peekSpliced_some_ne_nil hp)
        rw [← ih (nextSpliced s).2 (acc ++ [ch.ch]) (by omega)]
        simp [identifierLoopF, peekSplicedE_eq, nextSplicedE_eq, hp, hc]
      · rw [identifierLoop_stop hp hc]
        simp [identifierLoopF, peekSplicedE_eq, hp, hc]

/-- Self-fueled evaluator for `identifier`. -/
def identifierE (s : Source) : PpToken × Source :=
  let r := identifierLoopF (mu s + 1) s []
  (PpToken.Identifier (String.mk r.1), r.2)

theorem identifierE_eq (s : Source) : identifierE s = identifier s := by
  unfold identifierE identifier
  rw [identifierLoopF_eq (mu s + 1) s [] (by omega)]

/-- Fuel-based evaluator for `ppnumberLoop`. -/
def ppnumberLoopF : Nat → Source → List Char → List Char × Source
  | 0, s, acc => (acc, s)
  | fuel + 1, s, acc =>
    match peekSplicedE s with
    | some ch =>
      if ch.ch = 'e' ∨ ch.ch = 'E' then
        let acc1 := acc ++ [ch.ch]
        let s1 := (nextSplicedE s).2
        match peekSplicedE s1 with
        | some ch2 =>
          if ch2.ch = '+' ∨ ch2.ch = '-' then
            ppnumberLoopF fuel (nextSplicedE s1).2 (acc1 ++ [ch2.ch])
          else ppnumberLoopF fuel s1 acc1
        | none => ppnumberLoopF fuel s1 acc1
      else if isAsciiAlphanumeric ch.ch || ch.ch = '_' || ch.ch = '.' then
        ppnumberLoopF fuel (nextSplicedE s).2 (acc ++ [ch.ch])
      else (acc, s)
    | none => (acc, s)

theorem ppnumberLoopF_eq (fuel : Nat) (s : Source) (acc : List Char)
    (hf : mu s < fuel) : ppnumberLoopF fuel s acc = ppnumberLoop s acc := by
  induction fuel generalizing s acc with
  | zero => omega
  | succ fuel ih =>
    match hp : peekSpliced s with
    | none =>
      rw [ppnumberLoop_nf hp]
      simp [ppnumberLoopF, peekSplicedE_eq, hp]
    | some ch =>
      by_cases he : ch.ch = 'e' ∨ ch.ch = 'E'
      · have k1 := nextSpliced_mu_lt s (peekSpliced_some_ne_nil hp)
        match h2 : peekSpliced (nextSpliced s).2 with
        | some ch2 =>
          by_cases hsg : ch2.ch = '+' ∨ ch2.ch = '-'
          · rw [ppnumberLoop_e_sign hp he h2 hsg]
            have k2 := nextSpliced_mu_lt (nextSpliced s).2 (peekSpliced_some_ne_nil h2)
            rw [← ih (nextSpliced (nextSpliced s).2).2 (acc ++ [ch.ch] ++ [ch2.ch]) (by omega)]
            simp [ppnumberLoopF, peekSplicedE_eq, nextSplicedE_eq, hp, he, h2, hsg]
          · rw [ppnumberLoop_e_nosign hp he h2 hsg]
            rw [← ih (nextSpliced s).2 (acc ++ [ch.ch]) (by omega)]
            simp [ppnumberLoopF, peekSplicedE_eq, nextSplicedE_eq, hp, he, h2, hsg]
        | none =>
          rw [ppnumberLoop_e_nf hp he h2]
          rw [← ih (nextSpliced s).2 (acc ++ [ch.ch]) (by omega)]
          simp [ppnumberLoopF, peekSplicedE_eq, nextSplicedE_eq, hp, he, h2]
      · by_cases hc : isAsciiAlphanumeric ch.ch || ch.ch = '_' || ch.ch = '.'
        · rw [ppnumberLoop_plain hp he hc]
          have k1 := nextSpliced_mu_lt s (peekSpliced_some_ne_nil hp)
          rw [← ih (nextSpliced s).2 (acc ++ [ch.ch]) (by omega)]
          simp [ppnumberLoopF, peekSplicedE_eq, nextSplicedE_eq, hp, he, hc]
        · rw [ppnumberLoop_stop hp he hc]
          simp [ppnumberLoopF, peekSplicedE_eq, hp, he, hc]

/-- Self-fueled evaluator for `ppnumber`. -/
def ppnumberE (s : Source) : PpToken × Source :=
  let r := ppnumberLoopF (mu s + 1) s []
  (PpToken.Number (String.mk r.1), r.2)

theorem ppnumberE_eq (s : Source) : ppnumberE s = ppnumber s := by
  unfold ppnumberE ppnumber
  rw [ppnumberLoopF_eq (mu s + 1) s [] (by omega)]

/-- Fuel-based evaluator for `escapeHexLoop`. -/
def escapeHexLoopF : Nat → Source → List Char → Point → Except CcError (List Char) × Source
  | 0, s, acc, _ => (Except.ok acc, s)
  | fuel + 1, s, acc, pt =>
    match peekSplicedE s with
    | some ch =>
      if isAsciiHexdigit ch.ch then
        escapeHexLoopF fuel (nextSplicedE s).2 (acc ++ [ch.ch]) pt
      else (Except.ok acc, s)
    | none => (Except.error (CcError.errWithLoc "unterminated escape sequence" pt), s)

theorem escapeHexLoopF_eq (fuel : Nat) (s : Source) (acc : List Char) (pt : Point)
    (hf : mu s < fuel) : escapeHexLoopF fuel s acc pt = escapeHexLoop s acc pt := by
  induction fuel generalizing s acc with
  | zero => omega
  | succ fuel ih =>
    match hp : peekSpliced s with
    | none =>
      rw [escapeHexLoop_nf hp]
      simp [escapeHexLoopF, peekSplicedE_eq, hp]
    | some ch =>
      by_cases hc : isAsciiHexdigit ch.ch
      · rw [escapeHexLoop_rec hp hc]
        have k1 := nextSpliced_mu_lt s (peekSpliced_some_ne_nil hp)
        rw [← ih (nextSpliced s).2 (acc ++ [ch.ch]) (by omega)]
        simp [escapeHexLoopF, peekSplicedE_eq, nextSplicedE_eq, hp, hc]
      · rw [escapeHexLoop_stop hp hc]
        simp [escapeHexLoopF, peekSplicedE_eq, hp, hc]

/-- Fuel-based evaluator for `escapeOctLoop`. -/
def escapeOctLoopF : Nat → Source → List Char → Point → Except CcError (List Char) × Source
  | 0, s, acc, _ => (Except.ok acc, s)
  | fuel + 1, s, acc, pt =>
    match peekSplicedE s with
    | some ch =>
      if !isAsciiDigit ch.ch && ch.ch != '8' && ch.ch != '9' then (Except.ok acc, s)
      else escapeOctLoopF fuel (nextSplicedE s).2 (acc ++ [ch.ch]) pt
    | none => (Except.error (CcError.errWithLoc "unterminated escape sequence" pt), s)

theorem escapeOctLoopF_eq (fuel : Nat) (s : Source) (acc : List Char) (pt : Point)
    (hf : mu s < fuel) : escapeOctLoopF fuel s acc pt = escapeOctLoop s acc pt := by
  induction fuel generalizing s acc with
  | zero => omega
  | succ fuel ih =>
    match hp : peekSpliced s with
    | none =>
      rw [escapeOctLoop_nf hp]
      simp [escapeOctLoopF, peekSplicedE_eq, hp]
    | some ch =>
      by_cases hc : (!isAsciiDigit ch.ch && ch.ch != '8' && ch.ch != '9') = true
      · rw [escapeOctLoop_stop hp hc]
        simp only [escapeOctLoopF, peekSplicedE_eq, hp, hc]
        simp
      · rw [escapeOctLoop_rec hp hc]
        have k1 := nextSpliced_mu_lt s (peekSpliced_some_ne_nil hp)
        rw [← ih (nextSpliced s).2 (acc ++ [ch.ch]) (by omega)]
        simp only [escapeOctLoopF, peekSplicedE_eq, nextSplicedE_eq, hp]
        rw [if_neg hc]

/-- Evaluator for `escapeSequence` (not itself recursive; it drives the two
fueled digit loops). -/
def escapeSequenceE (s : Source) (accum : List Char) (pt : Point) :
    Except CcError (List Char) × Source :=
  let accum := accum ++ ['\\']
  match peekSplicedE s with
  | some ch =>
    if ch.ch = 'x' then
      escapeHexLoopF (mu s + 1) (nextSplicedE s).2 (accum ++ ['x']) pt
    else if '0' ≤ ch.ch ∧ ch.ch ≤ '7' then
      escapeOctLoopF (mu s + 1) s (accum ++ [ch.ch]) pt
    else
      (Except.ok (accum ++ [ch.ch]), (nextSplicedE s).2)
  | none => (Except.error (CcError.errWithLoc "unterminated escape sequence" pt), s)

theorem escapeSequence_nf {s : Source} {accum : List Char} {pt : Point}
    (h : peekSpliced s = none) :
    escapeSequence s accum pt =
      (Except.error (CcError.errWithLoc "unterminated escape sequence" pt), s) := by
  rw [escapeSequence]
  split <;> simp_all

theorem escapeSequence_x {s : Source} {accum : List Char} {pt : Point} {ch : SourceChar}
    (h : peekSpliced s = some ch) (hx : ch.ch = 'x') :
    escapeSequence s accum pt =
      escapeHexLoop (nextSpliced s).2 (accum ++ ['\\'] ++ ['x']) pt := by
  rw [escapeSequence]
  split <;> simp_all

theorem escapeSequence_oct {s : Source} {accum : List Char} {pt : Point} {ch : SourceChar}
    (h : peekSpliced s = some ch) (hx : ch.ch ≠ 'x') (ho : '0' ≤ ch.ch ∧ ch.ch ≤ '7') :
    escapeSequence s accum pt = escapeOctLoop s (accum ++ ['\\'] ++ [ch.ch]) pt := by
  rw [escapeSequence]
  split <;> simp_all

theorem escapeSequence_plain {s : Source} {accum : List Char} {pt : Point} {ch : SourceChar}
    (h : peekSpliced s = some ch) (hx : ch.ch ≠ 'x') (ho : ¬ ('0' ≤ ch.ch ∧ ch.ch ≤ '7')) :
    escapeSequence s accum pt =
      (Except.ok (accum ++ ['\\'] ++ [ch.ch]), (nextSpliced s).2) := by
  rw [escapeSequence]
  split <;> simp_all

theorem escapeSequenceE_eq (s : Source) (accum : List Char) (pt : Point) :
    escapeSequenceE s accum pt = escapeSequence s accum pt := by
  match hp : peekSpliced s with
  | none =>
    rw [escapeSequence_nf hp]
    simp [escapeSequenceE, peekSplicedE_eq, hp]
  | some ch =>
    by_cases hx : ch.ch = 'x'
    · rw [escapeSequence_x hp hx]
      have k1 := nextSpliced_mu_lt s (peekSpliced_some_ne_nil hp)
      rw [← escapeHexLoopF_eq (mu s + 1) (nextSpliced s).2 (accum ++ ['\\'] ++ ['x']) pt
        (by omega)]
      simp [escapeSequenceE, peekSplicedE_eq, nextSplicedE_eq, hp, hx]
    · by_cases ho : '0' ≤ ch.ch ∧ ch.ch ≤ '7'
      · rw [escapeSequence_oct hp hx ho]
        rw [← escapeOctLoopF_eq (mu s + 1) s (accum ++ ['\\'] ++ [ch.ch]) pt (by omega)]
        simp [escapeSequenceE, peekSplicedE_eq, hp, hx, ho]
      · rw [escapeSequence_plain hp hx ho]
        simp [escapeSequenceE, peekSplicedE_eq, nextSplicedE_eq, hp, hx, ho]

/-- Branch equation for `textlitLoop`: raw newline fails. -/
theorem textlitLoop_nl {s : Source} {isChar : Bool} {pt : Point} {acc : List Char}
    {ch : SourceChar} (h : peekSpliced s = some ch) (hc : ch.ch = '\n') :
    textlitLoop s isChar pt acc =
      (Except.error (CcError.errWithLoc "unterminated character constant" pt), s) := by
  rw [textlitLoop]
  split <;> simp_all

theorem textlitLoop_cq {s : Source} {pt : Point} {acc : List Char}
    {ch : SourceChar} (h : peekSpliced s = some ch) (hc : ch.ch = '\'') :
    textlitLoop s true pt acc = (Except.ok acc, (nextSpliced s).2) := by
  rw [textlitLoop]
  split <;> simp_all

theorem textlitLoop_sq {s : Source} {pt : Point} {acc : List Char}
    {ch : SourceChar} (h : peekSpliced s = some ch) (hc : ch.ch = '"') :
    textlitLoop s false pt acc = (Except.ok acc, (nextSpliced s).2) := by
  rw [textlitLoop]
  split <;> simp_all

theorem textlitLoop_esc_ok {s s2 : Source} {isChar : Bool} {pt : Point}
    {acc acc2 : List Char} {ch : SourceChar} (h : peekSpliced s = some ch)
    (hnl : ch.ch ≠ '\n') (hq1 : ¬ (ch.ch = '\'' ∧ isChar))
    (hq2 : ¬ (ch.ch = '"' ∧ ¬ isChar = true)) (hb : ch.ch = '\\')
    (hesc : escapeSequence (nextSpliced s).2 acc pt = (Except.ok acc2, s2)) :
    textlitLoop s isChar pt acc = textlitLoop s2 isChar pt acc2 := by
  rw [textlitLoop]
  split <;> simp_all
  all_goals try (split <;> simp_all)
  all_goals try (split <;> simp_all)

theorem textlitLoop_esc_err {s s2 : Source} {isChar : Bool} {pt : Point}
    {acc : List Char} {e : CcError} {ch : SourceChar} (h : peekSpliced s = some ch)
    (hnl : ch.ch ≠ '\n') (hq1 : ¬ (ch.ch = '\'' ∧ isChar))
    (hq2 : ¬ (ch.ch = '"' ∧ ¬ isChar = true)) (hb : ch.ch = '\\')
    (hesc : escapeSequence (nextSpliced s).2 acc pt = (Except.error e, s2)) :
    textlitLoop s isChar pt acc = (Except.error e, s2) := by
  rw [textlitLoop]
  split <;> simp_all
  all_goals try (split <;> simp_all)
  all_goals try (split <;> simp_all)

theorem textlitLoop_plain {s : Source} {isChar : Bool} {pt : Point} {acc : List Char}
    {ch : SourceChar} (h : peekSpliced s = some ch) (hnl : ch.ch ≠ '\n')
    (hq1 : ¬ (ch.ch = '\'' ∧ isChar)) (hq2 : ¬ (ch.ch = '"' ∧ ¬ isChar = true))
    (hb : ch.ch ≠ '\\') :
    textlitLoop s isChar pt acc = textlitLoop (nextSpliced s).2 isChar pt (acc ++ [ch.ch]) := by
  rw [textlitLoop]
  split <;> simp_all
  all_goals try (split <;> simp_all)
  all_goals try (split <;> simp_all)

theorem textlitLoop_nf {s : Source} {isChar : Bool} {pt : Point} {acc : List Char}
    (h : peekSpliced s = none) :
    textlitLoop s isChar pt acc =
      (Except.error (CcError.errWithLoc "unterminated character constant" pt), s) := by
  rw [textlitLoop]
  split <;> simp_all

/-- Fuel-based evaluator for `textlitLoop`. -/
def textlitLoopF : Nat → Source → Bool → Point → List Char → Except CcError (List Char) × Source
  | 0, s, _, pt, _ =>
    (Except.error (CcError.errWithLoc "unterminated character constant" pt), s)
  | fuel + 1, s, isChar, pt, acc =>
    match peekSplicedE s with
    | some ch =>
      if ch.ch = '\n' then
        (Except.error (CcError.errWithLoc "unterminated character constant" pt), s)
      else if ch.ch = '\'' ∧ isChar then
        (Except.ok acc, (nextSplicedE s).2)
      else if ch.ch = '"' ∧ ¬ isChar = true then
        (Except.ok acc, (nextSplicedE s).2)
      else if ch.ch = '\\' then
        match escapeSequenceE (nextSplicedE s).2 acc pt with
        | (Except.ok acc2, s2) => textlitLoopF fuel s2 isChar pt acc2
        | (Except.error e, s2) => (Except.error e, s2)
      else
        textlitLoopF fuel (nextSplicedE s).2 isChar pt (acc ++ [ch.ch])
    | none => (Except.error (CcError.errWithLoc "unterminated character constant" pt), s)

theorem textlitLoopF_eq (fuel : Nat) (s : Source) (isChar : Bool) (pt : Point)
    (acc : List Char) (hf : mu s < fuel) :
    textlitLoopF fuel s isChar pt acc = textlitLoop s isChar pt acc := by
  induction fuel generalizing s acc with
  | zero => omega
  | succ fuel ih =>
    match hp : peekSpliced s with
    | none =>
      rw [textlitLoop_nf hp]
      simp [textlitLoopF, peekSplicedE_eq, hp]
    | some ch =>
      by_cases hnl : ch.ch = '\n'
      · rw [textlitLoop_nl hp hnl]
        simp [textlitLoopF, peekSplicedE_eq, hp, hnl]
      · by_cases hq1 : ch.ch = '\'' ∧ isChar
        · rcases hq1 with ⟨hqc, hic⟩
          subst hic
          rw [textlitLoop_cq hp hqc]
          simp [textlitLoopF, peekSplicedE_eq, nextSplicedE_eq, hp, hnl, hqc]
        · by_cases hq2 : ch.ch = '"' ∧ ¬ isChar = true
          · rcases hq2 with ⟨hqc, hic⟩
            have hic2 : isChar = false := by
              cases isChar
              · rfl
              · exact absurd rfl hic
            subst hic2
            rw [textlitLoop_sq hp hqc]
            simp [textlitLoopF, peekSplicedE_eq, nextSplicedE_eq, hp, hnl, hqc]
          · by_cases hb : ch.ch = '\\'
            · have k1 := nextSpliced_mu_lt s (peekSpliced_some_ne_nil hp)
              have k2 := escapeSequence_mu_le (nextSpliced s).2 acc pt
              match hesc : escapeSequence (nextSpliced s).2 acc pt with
              | (Except.ok acc2, s2) =>
                rw [textlitLoop_esc_ok hp hnl hq1 hq2 hb hesc]
                have k3 : (escapeSequence (nextSpliced s).2 acc pt).2 = s2 := by rw [hesc]
                rw [k3] at k2
                rw [← ih s2 acc2 (by omega)]
                simp only [textlitLoopF, peekSplicedE_eq, nextSplicedE_eq,
                  escapeSequenceE_eq, hp, hesc]
                simp [hnl, hq1, hq2, hb]
              | (Except.error e, s2) =>
                rw [textlitLoop_esc_err hp hnl hq1 hq2 hb hesc]
                simp only [textlitLoopF, peekSplicedE_eq, nextSplicedE_eq,
                  escapeSequenceE_eq, hp, hesc]
                simp [hnl, hq1, hq2, hb]
            · rw [textlitLoop_plain hp hnl hq1 hq2 hb]
              have k1 := nextSpliced_mu_lt s (peekSpliced_some_ne_nil hp)
              rw [← ih (nextSpliced s).2 (acc ++ [ch.ch]) (by omega)]
              simp only [textlitLoopF, peekSplicedE_eq, nextSplicedE_eq, hp]
              rw [if_neg hnl, if_neg hq1, if_neg hq2, if_neg hb]

/-- Evaluator for `textlit`. -/
def textlitE (s : Source) (isChar : Bool) (pt : Point) : Except CcError PpToken × Source :=
  match textlitLoopF (mu s + 1) s isChar pt [] with
  | (Except.ok cs, s1) =>
    if isChar then (Except.ok (PpToken.CharLiteral (String.mk cs)), s1)
    else (Except.ok (PpToken.StringLiteral (String.mk cs)), s1)
  | (Except.error e, s1) => (Except.error e, s1)

theorem textlitE_eq (s : Source) (isChar : Bool) (pt : Point) :
    textlitE s isChar pt = textlit s isChar pt := by
  unfold textlitE textlit
  rw [textlitLoopF_eq (mu s + 1) s isChar pt [] (by omega)]

/-- Fuel-based evaluator for `skipBlockComment`. -/
def skipBlockCommentF : Nat → Source → Point → Bool → Except CcError Unit × Source
  | 0, s, loc, _ => (Except.error (CcError.errWithLoc "unterminated block comment." loc), s)
  | fuel + 1, s, loc, lastStar =>
    match nextSplicedE s with
    | (some ch, s1) =>
      if ch.ch = '*' then skipBlockCommentF fuel s1 loc true
      else if ch.ch = '/' then
        if lastStar then (Except.ok (), s1) else skipBlockCommentF fuel s1 loc lastStar
      else skipBlockCommentF fuel s1 loc false
    | (none, s1) =>
      (Except.error (CcError.errWithLoc "unterminated block comment." loc), s1)

theorem skipBlockCommentF_eq (fuel : Nat) (s : Source) (loc : Point) (lastStar : Bool)
    (hf : mu s < fuel) : skipBlockCommentF fuel s loc lastStar = skipBlockComment s loc lastStar := by
  induction fuel generalizing s lastStar with
  | zero => omega
  | succ fuel ih =>
    match hns : nextSpliced s with
    | (some ch, s1) =>
      have k1 : (nextSpliced s).1 = some ch := by rw [hns]
      have k2 : (nextSpliced s).2 = s1 := by rw [hns]
      have k3 := nextSpliced_some_mu_lt k1
      rw [k2] at k3
      by_cases hc : ch.ch = '*'
      · rw [skipBlockComment_star hns hc]
        rw [← ih s1 true (by omega)]
        simp [skipBlockCommentF, nextSplicedE_eq, hns, hc]
      · by_cases hs : ch.ch = '/'
        · cases hls : lastStar
          · rw [skipBlockComment_slash_cont hns hs]
            rw [← ih s1 false (by omega)]
            simp [skipBlockCommentF, nextSplicedE_eq, hns, hc, hs]
          · rw [skipBlockComment_done hns hs]
            simp [skipBlockCommentF, nextSplicedE_eq, hns, hc, hs]
        · rw [skipBlockComment_other hns hc hs]
          rw [← ih s1 false (by omega)]
          simp [skipBlockCommentF, nextSplicedE_eq, hns, hc, hs]
    | (none, s1) =>
      rw [skipBlockComment_nf hns]
      simp [skipBlockCommentF, nextSplicedE_eq, hns]

/-- Fuel-based evaluator for `skipLineComment`. -/
def skipLineCommentF : Nat → Source → Point → Except CcError Unit × Source
  | 0, s, _ => (Except.ok (), s)
  | fuel + 1, s, loc =>
    match nextSplicedE s with
    | (some ch, s1) =>
      if ch.ch = '\n' then (Except.ok (), s1)
      else skipLineCommentF fuel s1 loc
    | (none, s1) => (Except.ok (), (nextSplicedE s1).2)

theorem skipLineCommentF_eq (fuel : Nat) (s : Source) (loc : Point)
    (hf : mu s < fuel) : skipLineCommentF fuel s loc = skipLineComment s loc := by
  induction fuel generalizing s with
  | zero => omega
  | succ fuel ih =>
    match hns : nextSpliced s with
    | (some ch, s1) =>
      have k1 : (nextSpliced s).1 = some ch := by rw [hns]
      have k2 : (nextSpliced s).2 = s1 := by rw [hns]
      have k3 := nextSpliced_some_mu_lt k1
      rw [k2] at k3
      by_cases hc : ch.ch = '\n'
      · rw [skipLineComment_nl hns hc]
        simp [skipLineCommentF, nextSplicedE_eq, hns, hc]
      · rw [skipLineComment_other hns hc]
        rw [← ih s1 (by omega)]
        simp [skipLineCommentF, nextSplicedE_eq, hns, hc]
    | (none, s1) =>
      rw [skipLineComment_nf hns]
      simp [skipLineCommentF, nextSplicedE_eq, hns]

theorem nextTokenAux_eof {s : Source} {emit : List Char} {nl : Bool}
    (h : peekSpliced s = none) :
    nextTokenAux s emit nl = (Except.ok PpToken.Eof, s, emit, nl) := by
  rw [nextTokenAux]
  split <;> simp_all

theorem nextTokenAux_ws {s : Source} {emit : List Char} {nl : Bool} {ch : SourceChar}
    (h : peekSpliced s = some ch) (hw : isAsciiWhitespace ch.ch) :
    nextTokenAux s emit nl =
      nextTokenAux s.next.2 (emit ++ [ch.ch]) (if ch.ch = '\n' then true else nl) := by
  rw [nextTokenAux]
  split <;> simp_all

theorem nextTokenAux_id {s : Source} {emit : List Char} {nl : Bool} {ch : SourceChar}
    (h : peekSpliced s = some ch) (hw : ¬ isAsciiWhitespace ch.ch)
    (ha : isAsciiAlphabetic ch.ch || ch.ch = '_') :
    nextTokenAux s emit nl = (Except.ok (identifier s).1, (identifier s).2, emit, nl) := by
  rw [nextTokenAux]
  split <;> simp_all

theorem nextTokenAux_num {s : Source} {emit : List Char} {nl : Bool} {ch : SourceChar}
    (h : peekSpliced s = some ch) (hw : ¬ isAsciiWhitespace ch.ch)
    (ha : ¬ (isAsciiAlphabetic ch.ch || ch.ch = '_'))
    (hnum : (match peekSplicedN s (if ch.ch = '.' then 1 else 0) with
      | some ch2 => isAsciiDigit ch2.ch
      | none => false) = true) :
    nextTokenAux s emit nl = (Except.ok (ppnumber s).1, (ppnumber s).2, emit, nl) := by
  rw [nextTokenAux]
  split <;> simp_all

theorem nextTokenAux_char {s : Source} {emit : List Char} {nl : Bool} {ch : SourceChar}
    (h : peekSpliced s = some ch) (hw : ¬ isAsciiWhitespace ch.ch)
    (ha : ¬ (isAsciiAlphabetic ch.ch || ch.ch = '_'))
    (hnum : ¬ (match peekSplicedN s (if ch.ch = '.' then 1 else 0) with
      | some ch2 => isAsciiDigit ch2.ch
      | none => false) = true)
    (hq : ch.ch = '\'') :
    nextTokenAux s emit nl =
      ((textlit (nextSpliced s).2 true ch.pt).1,
        (textlit (nextSpliced s).2 true ch.pt).2, emit, nl) := by
  rw [nextTokenAux]
  split <;> simp_all

theorem nextTokenAux_str {s : Source} {emit : List Char} {nl : Bool} {ch : SourceChar}
    (h : peekSpliced s = some ch) (hw : ¬ isAsciiWhitespace ch.ch)
    (ha : ¬ (isAsciiAlphabetic ch.ch || ch.ch = '_'))
    (hnum : ¬ (match peekSplicedN s (if ch.ch = '.' then 1 else 0) with
      | some ch2 => isAsciiDigit ch2.ch
      | none => false) = true)
    (hq : ch.ch ≠ '\'') (hq2 : ch.ch = '"') :
    nextTokenAux s emit nl =
      ((textlit (nextSpliced s).2 false ch.pt).1,
        (textlit (nextSpliced s).2 false ch.pt).2, emit, nl) := by
  rw [nextTokenAux]
  split <;> simp_all

theorem nextTokenAux_block_ok {s s1 s2 : Source} {emit : List Char} {nl : Bool}
    {ch : SourceChar} (h : peekSpliced s = some ch) (hw : ¬ isAsciiWhitespace ch.ch)
    (ha : ¬ (isAsciiAlphabetic ch.ch || ch.ch = '_'))
    (hnum : ¬ (match peekSplicedN s (if ch.ch = '.' then 1 else 0) with
      | some ch2 => isAsciiDigit ch2.ch
      | none => false) = true)
    (hq : ch.ch ≠ '\'') (hq2 : ch.ch ≠ '"')
    (hop : lookupOp s OPERATORS = (some PpToken.BlockComment, s1))
    (hskip : skipBlockComment s1 ch.pt false = (Except.ok (), s2)) :
    nextTokenAux s emit nl = nextTokenAux s2 (emit ++ [' ']) nl := by
  rw [nextTokenAux]
  split <;> simp_all
  all_goals try (split <;> simp_all)
  all_goals try (split <;> simp_all)

theorem nextTokenAux_block_err {s s1 s2 : Source} {emit : List Char} {nl : Bool}
    {e : CcError} {ch : SourceChar} (h : peekSpliced s = some ch)
    (hw : ¬ isAsciiWhitespace ch.ch)
    (ha : ¬ (isAsciiAlphabetic ch.ch || ch.ch = '_'))
    (hnum : ¬ (match peekSplicedN s (if ch.ch = '.' then 1 else 0) with
      | some ch2 => isAsciiDigit ch2.ch
      | none => false) = true)
    (hq : ch.ch ≠ '\'') (hq2 : ch.ch ≠ '"')
    (hop : lookupOp s OPERATORS = (some PpToken.BlockComment, s1))
    (hskip : skipBlockComment s1 ch.pt false = (Except.error e, s2)) :
    nextTokenAux s emit nl = (Except.error e, s2, emit, nl) := by
  rw [nextTokenAux]
  split <;> simp_all
  all_goals try (split <;> simp_all)
  all_goals try (split <;> simp_all)

theorem nextTokenAux_line_ok {s s1 s2 : Source} {emit : List Char} {nl : Bool}
    {ch : SourceChar} (h : peekSpliced s = some ch) (hw : ¬ isAsciiWhitespace ch.ch)
    (ha : ¬ (isAsciiAlphabetic ch.ch || ch.ch = '_'))
    (hnum : ¬ (match peekSplicedN s (if ch.ch = '.' then 1 else 0) with
      | some ch2 => isAsciiDigit ch2.ch
      | none => false) = true)
    (hq : ch.ch ≠ '\'') (hq2 : ch.ch ≠ '"')
    (hop : lookupOp s OPERATORS = (some PpToken.LineComment, s1))
    (hskip : skipLineComment s1 ch.pt = (Except.ok (), s2)) :
    nextTokenAux s emit nl = nextTokenAux s2 (emit ++ [' ']) nl := by
  rw [nextTokenAux]
  split <;> simp_all
  all_goals try (split <;> simp_all)
  all_goals try (split <;> simp_all)

theorem nextTokenAux_line_err {s s1 s2 : Source} {emit : List Char} {nl : Bool}
    {e : CcError} {ch : SourceChar} (h : peekSpliced s = some ch)
    (hw : ¬ isAsciiWhitespace ch.ch)
    (ha : ¬ (isAsciiAlphabetic ch.ch || ch.ch = '_'))
    (hnum : ¬ (match peekSplicedN s (if ch.ch = '.' then 1 else 0) with
      | some ch2 => isAsciiDigit ch2.ch
      | none => false) = true)
    (hq : ch.ch ≠ '\'') (hq2 : ch.ch ≠ '"')
    (hop : lookupOp s OPERATORS = (some PpToken.LineComment, s1))
    (hskip : skipLineComment s1 ch.pt = (Except.error e, s2)) :
    nextTokenAux s emit nl = (Except.error e, s2, emit, nl) := by
  rw [nextTokenAux]
  split <;> simp_all
  all_goals try (split <;> simp_all)
  all_goals try (split <;> simp_all)

theorem nextTokenAux_op {s s1 : Source} {emit : List Char} {nl : Bool} {op : PpToken}
    {ch : SourceChar} (h : peekSpliced s = some ch) (hw : ¬ isAsciiWhitespace ch.ch)
    (ha : ¬ (isAsciiAlphabetic ch.ch || ch.ch = '_'))
    (hnum : ¬ (match peekSplicedN s (if ch.ch = '.' then 1 else 0) with
      | some ch2 => isAsciiDigit ch2.ch
      | none => false) = true)
    (hq : ch.ch ≠ '\'') (hq2 : ch.ch ≠ '"')
    (hop : lookupOp s OPERATORS = (some op, s1))
    (hbc : op ≠ PpToken.BlockComment) (hlc : op ≠ PpToken.LineComment) :
    nextTokenAux s emit nl = (Except.ok op, s1, emit, nl) := by
  rw [nextTokenAux]
  split <;> simp_all
  all_goals try (split <;> simp_all)
  all_goals try (split <;> simp_all)

theorem nextTokenAux_other {s s1 : Source} {emit : List Char} {nl : Bool}
    {ch ch2 : SourceChar} (h : peekSpliced s = some ch) (hw : ¬ isAsciiWhitespace ch.ch)
    (ha : ¬ (isAsciiAlphabetic ch.ch || ch.ch = '_'))
    (hnum : ¬ (match peekSplicedN s (if ch.ch = '.' then 1 else 0) with
      | some ch3 => isAsciiDigit ch3.ch
      | none => false) = true)
    (hq : ch.ch ≠ '\'') (hq2 : ch.ch ≠ '"')
    (hop : lookupOp s OPERATORS = (none, s1))
    (hpk : peekSpliced s1 = some ch2) :
    nextTokenAux s emit nl =
      (Except.ok (PpToken.Other ch2.ch), (nextSpliced s1).2, emit, nl) := by
  rw [nextTokenAux]
  split <;> simp_all
  all_goals try (split <;> simp_all)
  all_goals try (split <;> simp_all)

theorem nextTokenAux_stuck {s s1 : Source} {emit : List Char} {nl : Bool}
    {ch : SourceChar} (h : peekSpliced s = some ch) (hw : ¬ isAsciiWhitespace ch.ch)
    (ha : ¬ (isAsciiAlphabetic ch.ch || ch.ch = '_'))
    (hnum : ¬ (match peekSplicedN s (if ch.ch = '.' then 1 else 0) with
      | some ch3 => isAsciiDigit ch3.ch
      | none => false) = true)
    (hq : ch.ch ≠ '\'') (hq2 : ch.ch ≠ '"')
    (hop : lookupOp s OPERATORS = (none, s1))
    (hpk : peekSpliced s1 = none) :
    nextTokenAux s emit nl = (Except.ok PpToken.Eof, s1, emit, nl) := by
  rw [nextTokenAux]
  split <;> simp_all
  all_goals try (split <;> simp_all)
  all_goals try (split <;> simp_all)

/-- Fuel-based evaluator for `nextTokenAux`; the fuel bounds only the
whitespace/comment loop, all callees being evaluated by their own self-fueled
evaluators. -/
def nextTokenAuxF : Nat → Source → List Char → Bool →
    Except CcError PpToken × Source × List Char × Bool
  | 0, s, emit, nl => (Except.ok PpToken.Eof, s, emit, nl)
  | fuel + 1, s, emit, nl =>
    match peekSplicedE s with
    | none => (Except.ok PpToken.Eof, s, emit, nl)
    | some ch =>
      if isAsciiWhitespace ch.ch then
        nextTokenAuxF fuel s.next.2 (emit ++ [ch.ch]) (if ch.ch = '\n' then true else nl)
      else if isAsciiAlphabetic ch.ch || ch.ch = '_' then
        let r := identifierE s
        (Except.ok r.1, r.2, emit, nl)
      else
        let inum : Nat := if ch.ch = '.' then 1 else 0
        let isNumber : Bool :=
          match peekSplicedNE s inum with
          | some ch2 => isAsciiDigit ch2.ch
          | none => false
        if isNumber then
          let r := ppnumberE s
          (Except.ok r.1, r.2, emit, nl)
        else if ch.ch = '\'' then
          let r := textlitE (nextSplicedE s).2 true ch.pt
          (r.1, r.2, emit, nl)
        else if ch.ch = '"' then
          let r := textlitE (nextSplicedE s).2 false ch.pt
          (r.1, r.2, emit, nl)
        else
          match lookupOpE s OPERATORS with
          | (some PpToken.BlockComment, s1) =>
            match skipBlockCommentF (mu s1 + 1) s1 ch.pt false with
            | (Except.ok _, s2) => nextTokenAuxF fuel s2 (emit ++ [' ']) nl
            | (Except.error e, s2) => (Except.error e, s2, emit, nl)
          | (some PpToken.LineComment, s1) =>
            match skipLineCommentF (mu s1 + 1) s1 ch.pt with
            | (Except.ok _, s2) => nextTokenAuxF fuel s2 (emit ++ [' ']) nl
            | (Except.error e, s2) => (Except.error e, s2, emit, nl)
          | (some op, s1) => (Except.ok op, s1, emit, nl)
          | (none, s1) =>
            match peekSplicedE s1 with
            | some ch2 => (Except.ok (PpToken.Other ch2.ch), (nextSplicedE s1).2, emit, nl)
            | none => (Except.ok PpToken.Eof, s1, emit, nl)

theorem nextTokenAuxF_eq (fuel : Nat) (s : Source) (emit : List Char) (nl : Bool)
    (hf : mu s < fuel) : nextTokenAuxF fuel s emit nl = nextTokenAux s emit nl := by
  induction fuel generalizing s emit nl with
  | zero => omega
  | succ fuel ih =>
    match hp : peekSpliced s with
    | none =>
      rw [nextTokenAux_eof hp]
      simp [nextTokenAuxF, peekSplicedE_eq, hp]
    | some ch =>
      by_cases hw : isAsciiWhitespace ch.ch
      · rw [nextTokenAux_ws hp hw]
        have k1 := next_mu_lt s (peekSpliced_some_ne_nil hp)
        rw [← ih s.next.2 (emit ++ [ch.ch]) (if ch.ch = '\n' then true else nl) (by omega)]
        simp [nextTokenAuxF, peekSplicedE_eq, hp, hw]
      · by_cases ha : isAsciiAlphabetic ch.ch || ch.ch = '_'
        · rw [nextTokenAux_id hp hw ha]
          simp [nextTokenAuxF, peekSplicedE_eq, identifierE_eq, hp, hw, ha]
        · by_cases hnum : (match peekSplicedN s (if ch.ch = '.' then 1 else 0) with
            | some ch2 => isAsciiDigit ch2.ch
            | none => false) = true
          · rw [nextTokenAux_num hp hw ha hnum]
            simp only [nextTokenAuxF, peekSplicedE_eq, peekSplicedNE_eq, ppnumberE_eq, hp]
            rw [if_neg (by simp [hw]), if_neg (by simp [ha]), if_pos hnum]
          · by_cases hq : ch.ch = '\''
            · rw [nextTokenAux_char hp hw ha hnum hq]
              simp only [nextTokenAuxF, peekSplicedE_eq, peekSplicedNE_eq, nextSplicedE_eq,
                textlitE_eq, hp]
              rw [if_neg (by simp [hw]), if_neg (by simp [ha]), if_neg hnum, if_pos hq]
            · by_cases hq2 : ch.ch = '"'
              · rw [nextTokenAux_str hp hw ha hnum hq hq2]
                simp only [nextTokenAuxF, peekSplicedE_eq, peekSplicedNE_eq, nextSplicedE_eq,
                  textlitE_eq, hp]
                rw [if_neg (by simp [hw]), if_neg (by simp [ha]), if_neg hnum, if_neg hq,
                  if_pos hq2]
              · match hop : lookupOp s OPERATORS with
                | (none, s1) =>
                  match hpk : peekSpliced s1 with
                  | some ch2 =>
                    rw [nextTokenAux_other hp hw ha hnum hq hq2 hop hpk]
                    simp only [nextTokenAuxF, peekSplicedE_eq, peekSplicedNE_eq,
                      nextSplicedE_eq, lookupOpE_eq_OPERATORS, hp, hop, hpk]
                    rw [if_neg (by simp [hw]), if_neg (by simp [ha]), if_neg hnum, if_neg hq,
                      if_neg hq2]
                  | none =>
                    rw [nextTokenAux_stuck hp hw ha hnum hq hq2 hop hpk]
                    simp only [nextTokenAuxF, peekSplicedE_eq, peekSplicedNE_eq,
                      lookupOpE_eq_OPERATORS, hp, hop, hpk]
                    rw [if_neg (by simp [hw]), if_neg (by simp [ha]), if_neg hnum, if_neg hq,
                      if_neg hq2]
                | (some op, s1) =>
                  by_cases hbc : op = PpToken.BlockComment
                  · subst hbc
                    have k1 := lookupOp_some_mu_lt hop
                    match hskip : skipBlockComment s1 ch.pt false with
                    | (Except.ok u, s2) =>
                      cases u
                      rw [nextTokenAux_block_ok hp hw ha hnum hq hq2 hop hskip]
                      have k2 := skipBlockComment_mu_le s1 ch.pt false
                      have k3 : (skipBlockComment s1 ch.pt false).2 = s2 := by rw [hskip]
                      rw [k3] at k2
                      rw [← ih s2 (emit ++ [' ']) nl (by omega)]
                      rw [← skipBlockCommentF_eq (mu s1 + 1) s1 ch.pt false (by omega)] at hskip
                      simp only [nextTokenAuxF, peekSplicedE_eq, peekSplicedNE_eq,
                        lookupOpE_eq_OPERATORS, hp, hop, hskip]
                      rw [if_neg (by simp [hw]), if_neg (by simp [ha]), if_neg hnum, if_neg hq,
                        if_neg hq2]
                    | (Except.error e, s2) =>
                      rw [nextTokenAux_block_err hp hw ha hnum hq hq2 hop hskip]
                      rw [← skipBlockCommentF_eq (mu s1 + 1) s1 ch.pt false (by omega)] at hskip
                      simp only [nextTokenAuxF, peekSplicedE_eq, peekSplicedNE_eq,
                        lookupOpE_eq_OPERATORS, hp, hop, hskip]
                      rw [if_neg (by simp [hw]), if_neg (by simp [ha]), if_neg hnum, if_neg hq,
                        if_neg hq2]
                  · by_cases hlc : op = PpToken.LineComment
                    · subst hlc
                      have k1 := lookupOp_some_mu_lt hop
                      match hskip : skipLineComment s1 ch.pt with
                      | (Except.ok u, s2) =>
                        cases u
                        rw [nextTokenAux_line_ok hp hw ha hnum hq hq2 hop hskip]
                        have k2 := skipLineComment_mu_le s1 ch.pt
                        have k3 : (skipLineComment s1 ch.pt).2 = s2 := by rw [hskip]
                        rw [k3] at k2
                        rw [← ih s2 (emit ++ [' ']) nl (by omega)]
                        rw [← skipLineCommentF_eq (mu s1 + 1) s1 ch.pt (by omega)] at hskip
                        simp only [nextTokenAuxF, peekSplicedE_eq, peekSplicedNE_eq,
                          lookupOpE_eq_OPERATORS, hp, hop, hskip]
                        rw [if_neg (by simp [hw]), if_neg (by simp [ha]), if_neg hnum,
                          if_neg hq, if_neg hq2]
                      | (Except.error e, s2) =>
                        rw [nextTokenAux_line_err hp hw ha hnum hq hq2 hop hskip]
                        rw [← skipLineCommentF_eq (mu s1 + 1) s1 ch.pt (by omega)] at hskip
                        simp only [nextTokenAuxF, peekSplicedE_eq, peekSplicedNE_eq,
                          lookupOpE_eq_OPERATORS, hp, hop, hskip]
                        rw [if_neg (by simp [hw]), if_neg (by simp [ha]), if_neg hnum,
                          if_neg hq, if_neg hq2]
                    · rw [nextTokenAux_op hp hw ha hnum hq hq2 hop hbc hlc]
                      simp only [nextTokenAuxF, peekSplicedE_eq, peekSplicedNE_eq,
                        lookupOpE_eq_OPERATORS, hp, hop]
                      rw [if_neg (by simp [hw]), if_neg (by simp [ha]), if_neg hnum, if_neg hq,
                        if_neg hq2]
                      try (split <;> simp_all)

/-- Self-fueled evaluator for `nextToken`. -/
def nextTokenE (s : Source) (emit : List Char) :
    Except CcError PpToken × Source × List Char :=
  let r := nextTokenAuxF (mu s + 1) s emit false
  (r.1, r.2.1, r.2.2.1)

theorem nextTokenE_eq (s : Source) (emit : List Char) : nextTokenE s emit = nextToken s emit := by
  unfold nextTokenE nextToken
  rw [nextTokenAuxF_eq (mu s + 1) s emit false (by omega)]

/-- Self-fueled evaluator for `lexList`. -/
def lexListF : Source → Nat → List (Except CcError PpToken)
  | _, 0 => []
  | s, k + 1 =>
    let r := nextTokenE s []
    r.1 :: lexListF r.2.1 k

theorem lexListF_eq (s : Source) (k : Nat) : lexListF s k = lexList s k := by
  induction k generalizing s with
  | zero => rfl
  | succ k ih =>
    show (nextTokenE s []).1 :: lexListF (nextTokenE s []).2.1 k =
      (nextToken s []).1 :: lexList (nextToken s []).2.1 k
    rw [nextTokenE_eq, ih]

example : lexListF (mkSource ['-', '-']) 3 =
    [Except.ok PpToken.Subtract, Except.ok PpToken.Subtract, Except.ok PpToken.Eof] := by
  decide

theorem skipLineComment_ok (s : Source) (loc : Point) :
    (skipLineComment s loc).1 = Except.ok () := by
  induction s, loc using skipLineComment.induct with
  | case1 s loc ch s1 h hc =>
    rw [skipLineComment_nl h hc]
  | case2 s loc ch s1 h hc ih =>
    rw [skipLineComment_other h hc]
    exact ih
  | case3 s loc s1 h =>
    rw [skipLineComment_nf h]

theorem textlitLoop_mu_le (s : Source) (isChar : Bool) (pt : Point) (acc : List Char) :
    mu (textlitLoop s isChar pt acc).2 ≤ mu s := by
  induction s, isChar, pt, acc using textlitLoop.induct with
  | case1 s isChar pt acc ch h hc =>
    rw [textlitLoop_nl h hc]
  | case2 s isChar pt acc ch h hc hq =>
    rcases hq with ⟨hq, hic⟩
    subst hic
    rw [textlitLoop_cq h hq]
    exact nextSpliced_mu_le s
  | case3 s isChar pt acc ch h hc hq hq2 =>
    rcases hq2 with ⟨hq2c, hic⟩
    have hic2 : isChar = false := by
      cases isChar
      · rfl
      · exact absurd rfl hic
    subst hic2
    rw [textlitLoop_sq h hq2c]
    exact nextSpliced_mu_le s
  | case4 s isChar pt acc ch h hc hq hq2 hb acc2 s2 hesc ih =>
    rw [textlitLoop_esc_ok h hc hq hq2 hb hesc]
    have k1 := nextSpliced_mu_le s
    have k2 := escapeSequence_mu_le (nextSpliced s).2 acc pt
    have k3 : (escapeSequence (nextSpliced s).2 acc pt).2 = s2 := by rw [hesc]
    rw [k3] at k2
    omega
  | case5 s isChar pt acc ch h hc hq hq2 hb e s2 hesc =>
    rw [textlitLoop_esc_err h hc hq hq2 hb hesc]
    have k1 := nextSpliced_mu_le s
    have k2 := escapeSequence_mu_le (nextSpliced s).2 acc pt
    have k3 : (escapeSequence (nextSpliced s).2 acc pt).2 = s2 := by rw [hesc]
    rw [k3] at k2
    dsimp only
    omega
  | case6 s isChar pt acc ch h hc hq hq2 hb ih =>
    rw [textlitLoop_plain h hc hq hq2 hb]
    have k1 := nextSpliced_mu_le s
    omega
  | case7 s isChar pt acc h =>
    rw [textlitLoop_nf h]

theorem textlit_mu_le (s : Source) (isChar : Bool) (pt : Point) :
    mu (textlit s isChar pt).2 ≤ mu s := by
  unfold textlit
  have k1 := textlitLoop_mu_le s isChar pt []
  match hl : textlitLoop s isChar pt [] with
  | (Except.ok cs, s1) =>
    have k2 : (textlitLoop s isChar pt []).2 = s1 := by rw [hl]
    rw [k2] at k1
    cases isChar <;> simp [k1]
  | (Except.error e, s1) =>
    have k2 : (textlitLoop s isChar pt []).2 = s1 := by rw [hl]
    rw [k2] at k1
    simp [k1]

theorem escapeHexLoop_err_loc {s : Source} {acc : List Char} {pt : Point} {e : CcError}
    (h : (escapeHexLoop s acc pt).1 = Except.error e) : e.loc = some pt := by
  induction s, acc, pt using escapeHexLoop.induct with
  | case1 s acc pt ch hp hc ih =>
    rw [escapeHexLoop_rec hp hc] at h
    exact ih h
  | case2 s acc pt ch hp hc =>
    rw [escapeHexLoop_stop hp hc] at h
    cases h
  | case3 s acc pt hp =>
    rw [escapeHexLoop_nf hp] at h
    injection h with h2
    rw [← h2]
    rfl

theorem escapeOctLoop_err_loc {s : Source} {acc : List Char} {pt : Point} {e : CcError}
    (h : (escapeOctLoop s acc pt).1 = Except.error e) : e.loc = some pt := by
  induction s, acc, pt using escapeOctLoop.induct with
  | case1 s acc pt ch hp hc =>
    rw [escapeOctLoop_stop hp hc] at h
    cases h
  | case2 s acc pt ch hp hc ih =>
    rw [escapeOctLoop_rec hp hc] at h
    exact ih h
  | case3 s acc pt hp =>
    rw [escapeOctLoop_nf hp] at h
    injection h with h2
    rw [← h2]
    rfl

theorem escapeSequence_err_loc {s : Source} {accum : List Char} {pt : Point} {e : CcError}
    (h : (escapeSequence s accum pt).1 = Except.error e) : e.loc = some pt := by
  match hp : peekSpliced s with
  | none =>
    rw [escapeSequence_nf hp] at h
    injection h with h2
    rw [← h2]
    rfl
  | some ch =>
    by_cases hx : ch.ch = 'x'
    · rw [escapeSequence_x hp hx] at h
      exact escapeHexLoop_err_loc h
    · by_cases ho : '0' ≤ ch.ch ∧ ch.ch ≤ '7'
      · rw [escapeSequence_oct hp hx ho] at h
        exact escapeOctLoop_err_loc h
      · rw [escapeSequence_plain hp hx ho] at h
        cases h

theorem textlitLoop_err_loc {s : Source} {isChar : Bool} {pt : Point} {acc : List Char}
    {e : CcError} (h : (textlitLoop s isChar pt acc).1 = Except.error e) : e.loc = some pt := by
  induction s, isChar, pt, acc using textlitLoop.induct with
  | case1 s isChar pt acc ch hp hc =>
    rw [textlitLoop_nl hp hc] at h
    injection h with h2
    rw [← h2]
    rfl
  | case2 s isChar pt acc ch hp hc hq =>
    rcases hq with ⟨hq, hic⟩
    subst hic
    rw [textlitLoop_cq hp hq] at h
    cases h
  | case3 s isChar pt acc ch hp hc hq hq2 =>
    rcases hq2 with ⟨hq2c, hic⟩
    have hic2 : isChar = false := by
      cases isChar
      · rfl
      · exact absurd rfl hic
    subst hic2
    rw [textlitLoop_sq hp hq2c] at h
    cases h
  | case4 s isChar pt acc ch hp hc hq hq2 hb acc2 s2 hesc ih =>
    rw [textlitLoop_esc_ok hp hc hq hq2 hb hesc] at h
    exact ih h
  | case5 s isChar pt acc ch hp hc hq hq2 hb e2 s2 hesc =>
    rw [textlitLoop_esc_err hp hc hq hq2 hb hesc] at h
    injection h with h2
    subst h2
    have : (escapeSequence (nextSpliced s).2 acc pt).1 = Except.error e2 := by rw [hesc]
    exact escapeSequence_err_loc this
  | case6 s isChar pt acc ch hp hc hq hq2 hb ih =>
    rw [textlitLoop_plain hp hc hq hq2 hb] at h
    exact ih h
  | case7 s isChar pt acc hp =>
    rw [textlitLoop_nf hp] at h
    injection h with h2
    rw [← h2]
    rfl

theorem textlit_err_loc {s : Source} {isChar : Bool} {pt : Point} {e : CcError}
    (h : (textlit s isChar pt).1 = Except.error e) : e.loc = some pt := by
  unfold textlit at h
  match hl : textlitLoop s isChar pt [] with
  | (Except.ok cs, s1) =>
    rw [hl] at h
    dsimp only at h
    cases isChar <;> simp at h
  | (Except.error e2, s1) =>
    rw [hl] at h
    dsimp only at h
    injection h with h2
    subst h2
    have : (textlitLoop s isChar pt []).1 = Except.error e2 := by rw [hl]
    exact textlitLoop_err_loc this

theorem textlit_ne_eof {s : Source} {isChar : Bool} {pt : Point} :
    (textlit s isChar pt).1 ≠ Except.ok PpToken.Eof := by
  unfold textlit
  match hl : textlitLoop s isChar pt [] with
  | (Except.ok cs, s1) => cases isChar <;> simp
  | (Except.error e, s1) => simp

/-- Depth-fueled check that a trie node maps no key to the `Eof` token. -/
def opNodeNoEofF : Nat → OpNode → Bool
  | 0, _ => false
  | fuel + 1, OpNode.mk tok onext =>
    (!(tok == PpToken.Eof)) && (match onext with
      | none => true
      | some l => l.all (fun p => opNodeNoEofF fuel p.2))

theorem assocFind_all {P : Char × OpNode → Bool} {map : List (Char × OpNode)} {c : Char}
    {op : OpNode} (hall : map.all P = true) (h : assocFind c map = some op) :
    ∃ k, P (k, op) = true := by
  induction map with
  | nil => cases h
  | cons p rest ih =>
    match p with
    | (k, v) =>
      rw [assocFind] at h
      rw [List.all_cons] at hall
      rw [Bool.and_eq_true] at hall
      by_cases hk : k = c
      · rw [if_pos hk] at h
        injection h with h2
        subst h2
        exact ⟨k, hall.1⟩
      · rw [if_neg hk] at h
        exact ih hall.2 h

theorem lookupOp_no_eof (fuel : Nat) (s : Source) (map : List (Char × OpNode))
    (hall : map.all (fun p => opNodeNoEofF fuel p.2) = true) :
    (lookupOp s map).1 ≠ some PpToken.Eof := by
  induction fuel generalizing s map with
  | zero =>
    match hp : peekSpliced s with
    | none => rw [lookupOp_nf hp]; simp
    | some sch =>
      match hfd : assocFind sch.ch map with
      | none => rw [lookupOp_nokey hp hfd]; simp
      | some op =>
        rcases assocFind_all hall hfd with ⟨k, hP⟩
        dsimp only at hP
        simp only [opNodeNoEofF] at hP
        cases hP
  | succ fuel ih =>
    match hp : peekSpliced s with
    | none => rw [lookupOp_nf hp]; simp
    | some sch =>
      match hfd : assocFind sch.ch map with
      | none => rw [lookupOp_nokey hp hfd]; simp
      | some op =>
        rcases assocFind_all hall hfd with ⟨k, hP⟩
        cases op with
        | mk tok onext =>
          dsimp only at hP
          simp only [opNodeNoEofF] at hP
          rw [Bool.and_eq_true] at hP
          have htok : tok ≠ PpToken.Eof := by
            have := hP.1
            simp at this
            exact this
          match honext : onext with
          | none =>
            have hn : (OpNode.mk tok none).next = none := rfl
            rw [lookupOp_leaf hp hfd hn]
            dsimp only [OpNode.token]
            intro hcon
            injection hcon with hcon2
            exact htok hcon2
          | some nextMap =>
            have hn : (OpNode.mk tok (some nextMap)).next = some nextMap := rfl
            have hall2 : nextMap.all (fun p => opNodeNoEofF fuel p.2) = true := by
              have := hP.2
              simpa using this
            match hi : lookupOp (nextSpliced s).2 nextMap with
            | (some t2, s3) =>
              rw [lookupOp_node_hit hp hfd hn hi]
              dsimp only
              intro hcon
              injection hcon with hcon2
              have hne := ih (nextSpliced s).2 nextMap hall2
              rw [hi] at hne
              dsimp only at hne
              rw [hcon2] at hne
              exact hne rfl
            | (none, s3) =>
              rw [lookupOp_node_miss hp hfd hn hi]
              dsimp only [OpNode.token]
              intro hcon
              injection hcon with hcon2
              exact htok hcon2

theorem OPERATORS_no_eof : OPERATORS.all (fun p => opNodeNoEofF 10 p.2) = true := by
  decide

theorem lookupOp_ne_eof (s : Source) : (lookupOp s OPERATORS).1 ≠ some PpToken.Eof :=
  lookupOp_no_eof 10 s OPERATORS OPERATORS_no_eof

theorem alpha_alnum {c : Char} (h : isAsciiAlphabetic c = true) :
    isAsciiAlphanumeric c = true := by
  simp [isAsciiAlphanumeric, h]

theorem digit_alnum {c : Char} (h : isAsciiDigit c = true) :
    isAsciiAlphanumeric c = true := by
  simp [isAsciiAlphanumeric, h]

theorem identifier_mu_lt {s : Source} {ch : SourceChar} (h : peekSpliced s = some ch)
    (ha : (isAsciiAlphabetic ch.ch || ch.ch = '_') = true) :
    mu (identifier s).2 < mu s := by
  unfold identifier
  dsimp only
  have hc : (isAsciiAlphanumeric ch.ch || ch.ch = '_') = true := by
    rw [Bool.or_eq_true] at ha ⊢
    rcases ha with ha | ha
    · exact Or.inl (alpha_alnum ha)
    · exact Or.inr ha
  rw [identifierLoop_rec h hc]
  have k1 := identifierLoop_mu_le (nextSpliced s).2 ([] ++ [ch.ch])
  have k2 := nextSpliced_mu_lt s (peekSpliced_some_ne_nil h)
  omega

theorem ppnumber_mu_lt {s : Source} {ch : SourceChar} (h : peekSpliced s = some ch)
    (hnum : (match peekSplicedN s (if ch.ch = '.' then 1 else 0) with
      | some ch2 => isAsciiDigit ch2.ch
      | none => false) = true) :
    mu (ppnumber s).2 < mu s := by
  unfold ppnumber
  dsimp only
  have k2 := nextSpliced_mu_lt s (peekSpliced_some_ne_nil h)
  by_cases hdot : ch.ch = '.'
  · have he : ¬ (ch.ch = 'e' ∨ ch.ch = 'E') := by
      rw [hdot]
      decide
    have hc : (isAsciiAlphanumeric ch.ch || ch.ch = '_' || ch.ch = '.') = true := by
      rw [hdot]
      decide
    rw [ppnumberLoop_plain h he hc]
    have k1 := ppnumberLoop_mu_le (nextSpliced s).2 ([] ++ [ch.ch])
    omega
  · rw [if_neg hdot, peekSplicedN_zero, h] at hnum
    have hd : isAsciiDigit ch.ch = true := hnum
    have he : ¬ (ch.ch = 'e' ∨ ch.ch = 'E') := by
      intro hor
      rcases hor with hor | hor <;> rw [hor] at hd <;> cases hd
    have hc : (isAsciiAlphanumeric ch.ch || ch.ch = '_' || ch.ch = '.') = true := by
      rw [Bool.or_eq_true, Bool.or_eq_true]
      exact Or.inl (Or.inl (digit_alnum hd))
    rw [ppnumberLoop_plain h he hc]
    have k1 := ppnumberLoop_mu_le (nextSpliced s).2 ([] ++ [ch.ch])
    omega

theorem identifier_fst (s : Source) :
    (identifier s).1 = PpToken.Identifier (String.mk (identifierLoop s []).1) := rfl

theorem ppnumber_fst (s : Source) :
    (ppnumber s).1 = PpToken.Number (String.mk (ppnumberLoop s []).1) := rfl

/-- Combined Eof-state and progress analysis for one `next_token` call: a call
returning Eof leaves the spliced stream at end of input, and any other call
strictly shrinks the stream measure. -/
theorem nextTokenAux_main : ∀ (N : Nat) (s : Source), mu s ≤ N → ∀ (emit : List Char)
    (nl : Bool),
    ((nextTokenAux s emit nl).1 = Except.ok PpToken.Eof →
      peekSpliced (nextTokenAux s emit nl).2.1 = none) ∧
    ((nextTokenAux s emit nl).1 ≠ Except.ok PpToken.Eof →
      mu (nextTokenAux s emit nl).2.1 < mu s) := by
  intro N
  induction N with
  | zero =>
    intro s hN emit nl
    match hp : peekSpliced s with
    | none =>
      rw [nextTokenAux_eof hp]
      exact ⟨fun _ => hp, fun hne => absurd rfl hne⟩
    | some ch =>
      have hnil := peekSpliced_some_ne_nil hp
      have h1 : 1 ≤ s.iters.length := by
        cases hi : s.iters with
        | nil => exact absurd hi hnil
        | cons a l => simp
      have : 1 ≤ mu s := by
        simp only [mu]
        omega
      omega
  | succ N ih =>
    intro s hN emit nl
    match hp : peekSpliced s with
    | none =>
      rw [nextTokenAux_eof hp]
      exact ⟨fun _ => hp, fun hne => absurd rfl hne⟩
    | some ch =>
      by_cases hw : isAsciiWhitespace ch.ch
      · rw [nextTokenAux_ws hp hw]
        have k1 := next_mu_lt s (peekSpliced_some_ne_nil hp)
        have ihx := ih s.next.2 (by omega) (emit ++ [ch.ch]) (if ch.ch = '\n' then true else nl)
        exact ⟨ihx.1, fun hne => lt_trans (ihx.2 hne) k1⟩
      · by_cases ha : isAsciiAlphabetic ch.ch || ch.ch = '_'
        · rw [nextTokenAux_id hp hw ha]
          refine ⟨fun hcon => ?_, fun _ => ?_⟩
          · rw [identifier_fst s] at hcon
            injection hcon with hcon2
            cases hcon2
          · exact identifier_mu_lt hp ha
        · by_cases hnum : (match peekSplicedN s (if ch.ch = '.' then 1 else 0) with
            | some ch2 => isAsciiDigit ch2.ch
            | none => false) = true
          · rw [nextTokenAux_num hp hw ha hnum]
            refine ⟨fun hcon => ?_, fun _ => ?_⟩
            · rw [ppnumber_fst s] at hcon
              injection hcon with hcon2
              cases hcon2
            · exact ppnumber_mu_lt hp hnum
          · by_cases hq : ch.ch = '\''
            · rw [nextTokenAux_char hp hw ha hnum hq]
              refine ⟨fun hcon => ?_, fun _ => ?_⟩
              · exact absurd hcon textlit_ne_eof
              · have k1 := textlit_mu_le (nextSpliced s).2 true ch.pt
                have k2 := nextSpliced_mu_lt s (peekSpliced_some_ne_nil hp)
                dsimp only
                omega
            · by_cases hq2 : ch.ch = '"'
              · rw [nextTokenAux_str hp hw ha hnum hq hq2]
                refine ⟨fun hcon => ?_, fun _ => ?_⟩
                · exact absurd hcon textlit_ne_eof
                · have k1 := textlit_mu_le (nextSpliced s).2 false ch.pt
                  have k2 := nextSpliced_mu_lt s (peekSpliced_some_ne_nil hp)
                  dsimp only
                  omega
              · match hop : lookupOp s OPERATORS with
                | (none, s1) =>
                  have hs1 : s1 = s := lookupOp_none_state hop
                  match hpk : peekSpliced s1 with
                  | some ch2 =>
                    rw [nextTokenAux_other hp hw ha hnum hq hq2 hop hpk]
                    refine ⟨fun hcon => ?_, fun _ => ?_⟩
                    · injection hcon with hcon2
                      cases hcon2
                    · have k1 := nextSpliced_mu_lt s1 (peekSpliced_some_ne_nil hpk)
                      dsimp only
                      exact lt_of_lt_of_eq k1 (by rw [hs1])
                  | none =>
                    rw [nextTokenAux_stuck hp hw ha hnum hq hq2 hop hpk]
                    exact ⟨fun _ => hpk, fun _ => by
                      rw [hs1] at hpk
                      rw [hpk] at hp
                      cases hp⟩
                | (some op, s1) =>
                  have k1 := lookupOp_some_mu_lt hop
                  by_cases hbc : op = PpToken.BlockComment
                  · subst hbc
                    match hskip : skipBlockComment s1 ch.pt false with
                    | (Except.ok u, s2) =>
                      cases u
                      rw [nextTokenAux_block_ok hp hw ha hnum hq hq2 hop hskip]
                      have k2 := skipBlockComment_mu_le s1 ch.pt false
                      have k3 : (skipBlockComment s1 ch.pt false).2 = s2 := by rw [hskip]
                      rw [k3] at k2
                      have ihx := ih s2 (by omega) (emit ++ [' ']) nl
                      exact ⟨ihx.1, fun hne => lt_of_lt_of_le (ihx.2 hne) (by omega)⟩
                    | (Except.error e, s2) =>
                      rw [nextTokenAux_block_err hp hw ha hnum hq hq2 hop hskip]
                      refine ⟨fun hcon => ?_, fun _ => ?_⟩
                      · cases hcon
                      · have k2 := skipBlockComment_mu_le s1 ch.pt false
                        have k3 : (skipBlockComment s1 ch.pt false).2 = s2 := by rw [hskip]
                        rw [k3] at k2
                        dsimp only
                        omega
                  · by_cases hlc : op = PpToken.LineComment
                    · subst hlc
                      match hskip : skipLineComment s1 ch.pt with
                      | (Except.ok u, s2) =>
                        cases u
                        rw [nextTokenAux_line_ok hp hw ha hnum hq hq2 hop hskip]
                        have k2 := skipLineComment_mu_le s1 ch.pt
                        have k3 : (skipLineComment s1 ch.pt).2 = s2 := by rw [hskip]
                        rw [k3] at k2
                        have ihx := ih s2 (by omega) (emit ++ [' ']) nl
                        exact ⟨ihx.1, fun hne => lt_of_lt_of_le (ihx.2 hne) (by omega)⟩
                      | (Except.error e, s2) =>
                        rw [nextTokenAux_line_err hp hw ha hnum hq hq2 hop hskip]
                        refine ⟨fun hcon => ?_, fun _ => ?_⟩
                        · cases hcon
                        · have k2 := skipLineComment_mu_le s1 ch.pt
                          have k3 : (skipLineComment s1 ch.pt).2 = s2 := by rw [hskip]
                          rw [k3] at k2
                          dsimp only
                          omega
                    · rw [nextTokenAux_op hp hw ha hnum hq hq2 hop hbc hlc]
                      refine ⟨fun hcon => ?_, fun _ => by dsimp only; exact k1⟩
                      injection hcon with hcon2
                      have := lookupOp_ne_eof s
                      rw [hop] at this
                      dsimp only at this
                      rw [hcon2] at this
                      exact (this rfl).elim

theorem lexTok_def (s : Source) : lexTok s = (nextTokenAux s [] false).1 := rfl

theorem lexStep_def (s : Source) : lexStep s = (nextTokenAux s [] false).2.1 := rfl

theorem lex_eof_state {s : Source} (h : lexTok s = Except.ok PpToken.Eof) :
    peekSpliced (lexStep s) = none := by
  rw [lexStep_def]
  exact (nextTokenAux_main (mu s) s le_rfl [] false).1 h

theorem lex_progress {s : Source} (h : lexTok s ≠ Except.ok PpToken.Eof) :
    mu (lexStep s) < mu s := by
  rw [lexStep_def]
  exact (nextTokenAux_main (mu s) s le_rfl [] false).2 h

theorem lex_eof_fix {s : Source} (h : peekSpliced s = none) :
    lexTok s = Except.ok PpToken.Eof ∧ lexStep s = s := by
  constructor
  · rw [lexTok_def, nextTokenAux_eof h]
  · rw [lexStep_def, nextTokenAux_eof h]

theorem lex_reaches_eof : ∀ (N : Nat) (s : Source), mu s ≤ N →
    ∃ m, lexTok (lexStep^[m] s) = Except.ok PpToken.Eof := by
  intro N
  induction N with
  | zero =>
    intro s hN
    refine ⟨0, ?_⟩
    simp only [Function.iterate_zero, id]
    by_contra hne
    have := lex_progress hne
    omega
  | succ N ih =>
    intro s hN
    by_cases he : lexTok s = Except.ok PpToken.Eof
    · exact ⟨0, by simpa using he⟩
    · have hlt := lex_progress he
      rcases ih (lexStep s) (by omega) with ⟨m, hm⟩
      refine ⟨m + 1, ?_⟩
      rw [Function.iterate_succ_apply]
      exact hm

theorem lex_eof_persists {s : Source} {j : Nat}
    (hj : lexTok (lexStep^[j] s) = Except.ok PpToken.Eof) :
    ∀ i, lexTok (lexStep^[j + i] s) = Except.ok PpToken.Eof := by
  have hnone : peekSpliced (lexStep (lexStep^[j] s)) = none := lex_eof_state hj
  have hfix := lex_eof_fix hnone
  have hiter : ∀ i, lexStep^[j + 1 + i] s = lexStep (lexStep^[j] s) := by
    intro i
    induction i with
    | zero =>
      rw [Nat.add_zero, Function.iterate_succ_apply']
    | succ i ihi =>
      have : j + 1 + (i + 1) = (j + 1 + i) + 1 := by omega
      rw [this, Function.iterate_succ_apply', ihi, hfix.2]
  intro i
  cases i with
  | zero => simpa using hj
  | succ i =>
    have : j + (i + 1) = j + 1 + i := by omega
    rw [this, hiter i]
    exact hfix.1

theorem peekN_nexts : ∀ (k : Nat) (s : Source), s.iters ≠ [] ∨ k = 0 →
    peekN s k = some (nexts s k) := by
  intro k
  induction k with
  | zero =>
    intro s _
    rw [peekN_zero]
    show some s.peek = some s.next.1
    rw [peek_eq_next_fst]
  | succ k ih =>
    intro s h
    have hne : s.iters ≠ [] := by
      rcases h with h | h
      · exact h
      · exact absurd h (Nat.succ_ne_zero k)
    rw [peekN_succ s k hne]
    by_cases he : s.next.2.iters = []
    · rw [if_pos he]
      have hnn : nexts s (k + 1) = none := nil_nexts he k
      rw [hnn]
    · rw [if_neg he]
      rw [ih s.next.2 (Or.inl he)]
      rfl

/-- C1. The claim that a backslash-newline splice is invisible to the token
scanner and its caller fails on the code: the whitespace arm of `next_token`
consumes through the raw `Source::next` rather than `next_spliced`, so for
the input backslash, newline, space, `a` the call returns `Identifier "a"`
but pushes `' '`, `'\n'`, `' '` into the trivia buffer, whereas the
splice-deleted input space, `a` produces the same token with trivia `' '`
only. -/
theorem c1_splice_trivia_leak :
    (nextToken (mkSource ['\\', '\n', ' ', 'a']) []).1 =
      Except.ok (PpToken.Identifier "a") ∧
    (nextToken (mkSource ['\\', '\n', ' ', 'a']) []).2.2 = [' ', '\n', ' '] ∧
    (nextToken (mkSource [' ', 'a']) []).1 = Except.ok (PpToken.Identifier "a") ∧
    (nextToken (mkSource [' ', 'a']) []).2.2 = [' '] := by
  rw [← nextTokenE_eq (mkSource ['\\', '\n', ' ', 'a']) [],
    ← nextTokenE_eq (mkSource [' ', 'a']) []]
  decide

/-- C2. The claim that `--` lexes to `Decrement` fails on the code: the
`OPERATORS` table maps the follow-up key `'+'` (not `'-'`) under `'-'` to
`Decrement`, so `--` lexes as two `Subtract` tokens while `-+` lexes as
`Decrement`; the longest-match part of the claim does hold (`<<=` is one
`LeftShiftAssign`). -/
theorem c2_decrement_miswired :
    lexList (mkSource ['-', '-']) 3 =
      [Except.ok PpToken.Subtract, Except.ok PpToken.Subtract, Except.ok PpToken.Eof] ∧
    lexList (mkSource ['-', '+']) 2 =
      [Except.ok PpToken.Decrement, Except.ok PpToken.Eof] ∧
    lexList (mkSource ['<', '<', '=']) 2 =
      [Except.ok PpToken.LeftShiftAssign, Except.ok PpToken.Eof] := by
  rw [← lexListF_eq (mkSource ['-', '-']) 3, ← lexListF_eq (mkSource ['-', '+']) 2,
    ← lexListF_eq (mkSource ['<', '<', '=']) 2]
  decide

/-- C3. The claim that every push immediately pops exhausted stack entries
fails on the code: the cache-hit branch of `push_file` returns before
`pop_nested`, so pushing an empty file (popped correctly on the first,
cache-miss push) and then re-pushing the same name leaves an exhausted
cursor on the stack, violating the documented invariant. -/
theorem c3_cached_push_skips_pop :
    SourceInv (pushFile ⟨[], [], false⟩ "f" []) ∧
    (pushFile ⟨[], [], false⟩ "f" []).iters = [] ∧
    (pushFile (pushFile ⟨[], [], false⟩ "f" []) "f" []).iters =
      [⟨0, 0, ⟨0, 1, 1⟩⟩] ∧
    ¬ SourceInv (pushFile (pushFile ⟨[], [], false⟩ "f" []) "f" []) := by
  decide

/-- C4 (amended). For every stream state `s` and every `k`, provided the
active-file stack is nonempty or `k = 0`, `peek_n k` returns exactly the
character the (k+1)-th subsequent `next` call would return (returning
nothing when fewer than k+1 characters remain), and `peek_n 0` agrees with
`peek`; the restriction is forced because `peek_n` with `k > 0` on an empty
stack panics instead of returning nothing (see the counterexample). Both
`peek` and `peek_n` are state queries: they take the stream by shared
reference in the source and are pure functions of the state here. -/
theorem c4_peekn_next_agreement :
    (∀ (s : Source) (k : Nat), s.iters ≠ [] ∨ k = 0 →
      peekN s k = some (nexts s k)) ∧
    (∀ s : Source, peekN s 0 = some s.peek) :=
  ⟨fun s k h => peekN_nexts k s h, fun s => peekN_zero s⟩

/-- C4 witness: the agreement evaluated on a concrete two-character stream
with one step of lookahead. -/
theorem c4_peekn_next_agreement_witness :
    peekN (mkSource ['a', 'b']) 1 = some (nexts (mkSource ['a', 'b']) 1) :=
  c4_peekn_next_agreement.1 (mkSource ['a', 'b']) 1 (Or.inl (by decide))

/-- C4 counterexample: on the empty stream (`Source::new()`), one subsequent
`next` returns nothing, but `peek_n 1` does not return nothing — it panics
(`iters.last().unwrap()` on an empty vector), modelled by the outer `none`
of `peekN`, so the claim as stated fails at this input. -/
theorem c4_peekn_next_agreement_counterexample :
    nexts (Source.mk [] [] false) 1 = none ∧
    peekN (Source.mk [] [] false) 1 ≠ some (nexts (Source.mk [] [] false) 1) := by
  decide

/-- C5. The claim that every escape sequence is captured verbatim, appearing
once, fails on the code: the octal arm of `escape_sequence` pushes the first
digit without consuming it, so the digit-collection loop pushes it a second
time — the literal `'\7'` is scanned as `CharLiteral "\77"` rather than
`CharLiteral "\7"` (the following `Comma` shows the literal extent itself is
still correct). -/
theorem c5_octal_digit_duplicated :
    lexList (mkSource ['\'', '\\', '7', '\'', ',']) 2 =
      [Except.ok (PpToken.CharLiteral "\\77"), Except.ok PpToken.Comma] := by
  rw [← lexListF_eq (mkSource ['\'', '\\', '7', '\'', ',']) 2]
  decide

/-- C6. The claim that `peek` and `peek_n` never fail on an exhausted stream
fails on the code: on an empty active-file stack `peek` and `peek_n 0` do
return nothing, but `peek_n k` for `k > 0` hits `iters.last().unwrap()` and
panics — modelled by `peekN` returning the outer `none` instead of the
normal return `some none`. -/
theorem c6_peekn_panics_on_empty :
    Source.peek (Source.mk [] [] false) = none ∧
    peekN (Source.mk [] [] false) 0 = some none ∧
    peekN (Source.mk [] [] false) 1 = none := by
  decide

/-- C7. Confirmed: every error produced while scanning a character or string
literal carries the position of the literal's opening quote (the `pt`
argument threaded from the quote character), and on the input quote, `a`,
newline, comma the first `next_token` call fails with the error at line 1
column 1 while the immediately following call returns `Comma` (and a third
returns `Eof`). -/
theorem c7_unterminated_literal_recovery :
    (∀ (s : Source) (isChar : Bool) (pt : Point) (e : CcError),
      (textlit s isChar pt).1 = Except.error e → e.loc = some pt) ∧
    lexList (mkSource ['\'', 'a', '\n', ',']) 3 =
      [Except.error ⟨"unterminated character constant", some ⟨0, 1, 1⟩⟩,
        Except.ok PpToken.Comma, Except.ok PpToken.Eof] := by
  refine ⟨fun s isChar pt e h => textlit_err_loc h, ?_⟩
  rw [← lexListF_eq (mkSource ['\'', 'a', '\n', ',']) 3]
  decide

/-- C7 witness: the error-position part evaluated on a concrete unterminated
character literal with a distinctive opening position. -/
theorem c7_unterminated_literal_recovery_witness :
    (CcError.mk "unterminated character constant" (some ⟨0, 5, 7⟩)).loc = some ⟨0, 5, 7⟩ :=
  c7_unterminated_literal_recovery.1 (mkSource ['a', '\n']) true ⟨0, 5, 7⟩
    ⟨"unterminated character constant", some ⟨0, 5, 7⟩⟩
    (by rw [← textlitE_eq]; decide)

/-- C8. Confirmed: for every stream state, repeated `next_token` calls reach
`Eof` after finitely many calls (each call is a total function here, and a
non-Eof call strictly decreases the remaining-input measure), and whenever
some call returns `Eof`, every later call on the same stream also returns
`Eof` — never an error and never another token. -/
theorem c8_eof_terminal :
    ∀ s : Source,
      (∃ m, lexTok (lexStep^[m] s) = Except.ok PpToken.Eof) ∧
      (∀ j, lexTok (lexStep^[j] s) = Except.ok PpToken.Eof →
        ∀ i, lexTok (lexStep^[j + i] s) = Except.ok PpToken.Eof) :=
  fun s => ⟨lex_reaches_eof (mu s) s le_rfl, fun _ hj i => lex_eof_persists hj i⟩

/-- C8 witness: on the one-character input `a`, the second call returns Eof
and the theorem then forces the third call to return Eof as well. -/
theorem c8_eof_terminal_witness :
    (∃ m, lexTok (lexStep^[m] (mkSource ['a'])) = Except.ok PpToken.Eof) ∧
    lexTok (lexStep^[1 + 1] (mkSource ['a'])) = Except.ok PpToken.Eof := by
  have e1 : lexStep (mkSource ['a']) = ⟨[⟨"abc", ['a']⟩], [], true⟩ := by
    show (nextToken (mkSource ['a']) []).2.1 = _
    rw [← nextTokenE_eq]
    decide
  have h1 : lexTok (lexStep^[1] (mkSource ['a'])) = Except.ok PpToken.Eof := by
    rw [Function.iterate_one, e1]
    show (nextToken _ []).1 = _
    rw [← nextTokenE_eq]
    decide
  exact ⟨(c8_eof_terminal (mkSource ['a'])).1, (c8_eof_terminal (mkSource ['a'])).2 1 h1 1⟩

/-- C9. Confirmed: `extract_one_char` reports every CR or LF (and hence
every CR/LF or LF/CR pair, which it consumes together) as a single newline,
resetting the reported next column to 1 and incrementing the line, while any
other character advances the column by 1; consequently the four inputs
`a\nb`, `a\rb`, `a\r\nb`, `a\n\rb` all tokenize to identifiers `a` and `b`
with the character `b` delivered at line 2, column 1. -/
theorem c9_newline_normalization :
    (∀ (file : SourceFile) (sp : SourcePointer),
      ((file.text.getD sp.next (Char.ofNat 0) = '\r' ∨
          file.text.getD sp.next (Char.ofNat 0) = '\n') →
        (extractOneChar file sp).2.ch = '\n' ∧
        (extractOneChar file sp).1.next_loc =
          ⟨sp.next_loc.file, sp.next_loc.line + 1, 1⟩) ∧
      (¬ (file.text.getD sp.next (Char.ofNat 0) = '\r' ∨
          file.text.getD sp.next (Char.ofNat 0) = '\n') →
        (extractOneChar file sp).2.ch = file.text.getD sp.next (Char.ofNat 0) ∧
        (extractOneChar file sp).1.next_loc =
          ⟨sp.next_loc.file, sp.next_loc.line, sp.next_loc.col + 1⟩)) ∧
    (∀ t ∈ [['a', '\n', 'b'], ['a', '\r', 'b'], ['a', '\r', '\n', 'b'],
        ['a', '\n', '\r', 'b']],
      lexList (mkSource t) 3 =
        [Except.ok (PpToken.Identifier "a"), Except.ok (PpToken.Identifier "b"),
          Except.ok PpToken.Eof] ∧
      nexts (mkSource t) 0 = some ⟨'a', ⟨0, 1, 1⟩, true⟩ ∧
      nexts (mkSource t) 1 = some ⟨'\n', ⟨0, 1, 2⟩, false⟩ ∧
      nexts (mkSource t) 2 = some ⟨'b', ⟨0, 2, 1⟩, false⟩ ∧
      nexts (mkSource t) 3 = none) := by
  constructor
  · intro file sp
    constructor
    · intro hnl
      unfold extractOneChar
      dsimp only
      rw [if_pos hnl]
      exact ⟨rfl, rfl⟩
    · intro hnl
      unfold extractOneChar
      dsimp only
      rw [if_neg hnl]
      exact ⟨rfl, rfl⟩
  · intro t ht
    rw [← lexListF_eq (mkSource t) 3]
    fin_cases ht <;> exact ⟨by decide, by decide, by decide, by decide, by decide⟩

/-- C9 witness: the newline and plain-character position rules evaluated on
concrete cursors. -/
theorem c9_newline_normalization_witness :
    ((extractOneChar ⟨"t", ['\r']⟩ ⟨0, 0, ⟨0, 3, 5⟩⟩).2.ch = '\n' ∧
      (extractOneChar ⟨"t", ['\r']⟩ ⟨0, 0, ⟨0, 3, 5⟩⟩).1.next_loc = ⟨0, 4, 1⟩) ∧
    ((extractOneChar ⟨"t", ['q']⟩ ⟨0, 0, ⟨0, 3, 5⟩⟩).2.ch = 'q' ∧
      (extractOneChar ⟨"t", ['q']⟩ ⟨0, 0, ⟨0, 3, 5⟩⟩).1.next_loc = ⟨0, 3, 6⟩) :=
  ⟨(c9_newline_normalization.1 ⟨"t", ['\r']⟩ ⟨0, 0, ⟨0, 3, 5⟩⟩).1 (by decide),
    (c9_newline_normalization.1 ⟨"t", ['q']⟩ ⟨0, 0, ⟨0, 3, 5⟩⟩).2 (by decide)⟩

/-- C10. Confirmed: when `next_token` meets a line comment (the punctuator
lookup yields the internal `LineComment` token), the whole comment including
its terminating newline is consumed by `skip_line_comment` (which always
succeeds), exactly one substituted space is appended to the trivia buffer,
and the internal newline-seen flag is passed on unchanged — the comment's
newline never reaches the whitespace loop that alone sets that flag, and is
never appended to the buffer. -/
theorem c10_line_comment_one_space :
    ∀ (s s1 : Source) (emit : List Char) (nl : Bool) (ch : SourceChar),
      peekSpliced s = some ch → ch.ch = '/' →
      lookupOp s OPERATORS = (some PpToken.LineComment, s1) →
      (skipLineComment s1 ch.pt).1 = Except.ok () ∧
      nextTokenAux s emit nl =
        nextTokenAux (skipLineComment s1 ch.pt).2 (emit ++ [' ']) nl := by
  intro s s1 emit nl ch h hc hop
  have hw : ¬ isAsciiWhitespace ch.ch = true := by
    rw [hc]
    decide
  have ha : ¬ (isAsciiAlphabetic ch.ch || ch.ch = '_') = true := by
    rw [hc]
    decide
  have h0 : (if ch.ch = '.' then 1 else 0) = 0 := by
    rw [hc]
    decide
  have hnum : ¬ (match peekSplicedN s (if ch.ch = '.' then 1 else 0) with
      | some ch2 => isAsciiDigit ch2.ch
      | none => false) = true := by
    rw [h0, peekSplicedN_zero, h]
    dsimp only
    rw [hc]
    decide
  have hq : ch.ch ≠ '\'' := by
    rw [hc]
    decide
  have hq2 : ch.ch ≠ '"' := by
    rw [hc]
    decide
  have hfst := skipLineComment_ok s1 ch.pt
  have hskip : skipLineComment s1 ch.pt = (Except.ok (), (skipLineComment s1 ch.pt).2) := by
    rw [← hfst]
  exact ⟨hfst, nextTokenAux_line_ok h hw ha hnum hq hq2 hop hskip⟩

/-- C10 witness: the line-comment rule evaluated on the concrete input
`//x`, newline, `=`. -/
theorem c10_line_comment_one_space_witness :
    (skipLineComment ⟨[⟨"abc", ['/', '/', 'x', '\n', '=']⟩],
        [⟨0, 2, ⟨0, 1, 3⟩⟩], false⟩ ⟨0, 1, 1⟩).1 = Except.ok () ∧
    nextTokenAux (mkSource ['/', '/', 'x', '\n', '=']) [] false =
      nextTokenAux (skipLineComment ⟨[⟨"abc", ['/', '/', 'x', '\n', '=']⟩],
        [⟨0, 2, ⟨0, 1, 3⟩⟩], false⟩ ⟨0, 1, 1⟩).2 ([] ++ [' ']) false :=
  c10_line_comment_one_space (mkSource ['/', '/', 'x', '\n', '='])
    ⟨[⟨"abc", ['/', '/', 'x', '\n', '=']⟩], [⟨0, 2, ⟨0, 1, 3⟩⟩], false⟩ [] false
    ⟨'/', ⟨0, 1, 1⟩, true⟩
    (by rw [← peekSplicedE_eq]; decide) rfl
    (by rw [← lookupOpE_eq_OPERATORS]; decide)

end CPre
